import Mathlib

/-!
Verification development for the softauth CTAP-HID / CTAP2 core.

This file shallowly embeds the packet framing layer (src/hid/packet.rs),
the packet processor state machine (src/hid/packet_processing.rs), the
channel allocator (src/hid/channel.rs), the CTAP-HID command layer
(src/hid/command.rs), the canonical CBOR ordering pass
(src/cbor/ordered_ser.rs) and the keyed-CBOR codec
(src/cbor/key_mapped.rs, key_mapped_ser.rs, key_mapped_de.rs,
src/authenticator/api.rs), and proves properties of those embeddings.

Modelling conventions:
- Machine integers (u8, u16, u32, usize) are modelled as Nat; wherever the
  source performs a truncating cast we take an explicit `% 2^w`.
- Byte strings are List Nat.
- Rust `Result` is modelled as `Except`; a Rust panic (assert!, todo!,
  unwrap on None) is modelled as the `none` case of an outer `Option`:
  `none` means the call panics, `some r` means it returns `r`.
- Functions taking `&mut self` return the updated state alongside their
  result.
-/

namespace Softauth

/-! ## Constants (src/hid/packet.rs, src/hid/channel.rs) -/

/-- Size of a HID report in bytes (HID_REPORT_SIZE). -/
def HID_REPORT_SIZE : Nat := 64

/-- Payload capacity of an initialization packet: 64 - 7. -/
def INIT_PACKET_PAYLOAD_SIZE : Nat := HID_REPORT_SIZE - 7

/-- Payload capacity of a continuation packet: 64 - 5. -/
def CONT_PACKET_PAYLOAD_SIZE : Nat := HID_REPORT_SIZE - 5

/-- The maximal sequence number of a continuation packet (MAX_SEQ_NUM). -/
def MAX_SEQ_NUM : Nat := 0x7f

/-- Maximal payload size of a CTAP-HID message (MAX_MESSAGE_PAYLOAD_SIZE). -/
def MAX_MESSAGE_PAYLOAD_SIZE : Nat :=
  INIT_PACKET_PAYLOAD_SIZE + CONT_PACKET_PAYLOAD_SIZE * (MAX_SEQ_NUM + 1)

/-- The broadcast channel id 0xFFFFFFFF (BROADCAST_CHANNEL). -/
def BROADCAST_CHANNEL : Nat := 0xffffffff

/-- The reserved channel id 0 (RESERVED_CHANNEL). -/
def RESERVED_CHANNEL : Nat := 0

/-! ## CTAP-HID command bytes (src/hid/command.rs) -/

/-- CommandType: a CTAP-HID command with the wire MSB stripped. -/
inductive CommandType where
  | msg
  | cbor
  | init
  | ping
  | cancel
  | error
  | keepalive
  | wink
  | lock
  deriving DecidableEq, Repr

/-- The u8 discriminant of each CommandType variant. -/
def CommandType.toNat : CommandType → Nat
  | .msg => 0x03
  | .cbor => 0x10
  | .init => 0x06
  | .ping => 0x01
  | .cancel => 0x11
  | .error => 0x3F
  | .keepalive => 0x3B
  | .wink => 0x08
  | .lock => 0x04

/-- CommandType::try_from on a u8 discriminant (num_enum TryFromPrimitive). -/
def CommandType.fromNat? (n : Nat) : Option CommandType :=
  if n = 0x03 then some .msg
  else if n = 0x10 then some .cbor
  else if n = 0x06 then some .init
  else if n = 0x01 then some .ping
  else if n = 0x11 then some .cancel
  else if n = 0x3F then some .error
  else if n = 0x3B then some .keepalive
  else if n = 0x08 then some .wink
  else if n = 0x04 then some .lock
  else none

/-- First vendor-range command identifier (CTAPHID_VENDOR_FIRST). -/
def CTAPHID_VENDOR_FIRST : Nat := 0x40

/-- Last vendor-range command identifier (CTAPHID_VENDOR_LAST). -/
def CTAPHID_VENDOR_LAST : Nat := 0x7F

/-- InvalidCommandType: reasons a command identifier fails to parse. -/
inductive InvalidCommandType where
  | unsupportedVendor (b : Nat)
  | invalidCommand (b : Nat)
  deriving DecidableEq, Repr

/-- CommandType::from_packet_command_identifier. The source asserts that the
MSB of the byte is set (panic when clear, modelled as none), strips it
(`& 0x7F`, i.e. `% 128`), rejects the vendor range, and converts the rest
via try_from. -/
def CommandType.fromPacketCommandIdentifier (b : Nat) :
    Option (Except InvalidCommandType CommandType) :=
  if ¬ b.testBit 7 then none
  else
    let c := b % 128
    if CTAPHID_VENDOR_FIRST ≤ c ∧ c ≤ CTAPHID_VENDOR_LAST then
      some (.error (.unsupportedVendor c))
    else
      match CommandType.fromNat? c with
      | some ct => some (.ok ct)
      | none => some (.error (.invalidCommand c))

/-- ErrorCode: HID-level error codes (src/hid/command.rs). -/
inductive ErrorCode where
  | invalidCmd
  | invalidPar
  | invalidLen
  | invalidSeq
  | msgTimeout
  | channelBusy
  | lockRequired
  | invalidChannel
  | other
  deriving DecidableEq, Repr

/-- The u8 discriminant of each ErrorCode variant. -/
def ErrorCode.toNat : ErrorCode → Nat
  | .invalidCmd => 0x01
  | .invalidPar => 0x02
  | .invalidLen => 0x03
  | .invalidSeq => 0x04
  | .msgTimeout => 0x05
  | .channelBusy => 0x06
  | .lockRequired => 0x0A
  | .invalidChannel => 0x0B
  | .other => 0x7F

/-! ## Packets and messages (src/hid/packet.rs) -/

/-- InitializationPacket: the structured view of an initialization report. -/
structure InitializationPacket where
  channelIdentifier : Nat
  commandIdentifier : Nat
  payloadLength : Nat
  data : List Nat
  deriving DecidableEq, Repr

/-- InitializationPacket::get_command_type. -/
def InitializationPacket.getCommandType (p : InitializationPacket) :
    Option (Except InvalidCommandType CommandType) :=
  CommandType.fromPacketCommandIdentifier p.commandIdentifier

/-- ContinuationPacket: the structured view of a continuation report. -/
structure ContinuationPacket where
  channelIdentifier : Nat
  packetSequence : Nat
  data : List Nat
  deriving DecidableEq, Repr

/-- Packet: a CTAP-HID packet, one of the two report variants. -/
inductive Packet where
  | initialization (p : InitializationPacket)
  | continuation (p : ContinuationPacket)
  deriving DecidableEq, Repr

/-- Packet::get_channel. -/
def Packet.getChannel : Packet → Nat
  | .initialization p => p.channelIdentifier
  | .continuation p => p.channelIdentifier

/-- View of an Except value as a sum, used to derive decidable equality. -/
def exceptToSum {E A : Type} : Except E A → E ⊕ A
  | .error e => .inl e
  | .ok a => .inr a

instance {E A : Type} [DecidableEq E] [DecidableEq A] :
    DecidableEq (Except E A) := fun x y =>
  decidable_of_iff (exceptToSum x = exceptToSum y)
    (by cases x <;> cases y <;> simp [exceptToSum])

/-- Message: a reassembled CTAP-HID message. -/
structure Message where
  channelIdentifier : Nat
  command : Except InvalidCommandType CommandType
  payload : List Nat
  deriving DecidableEq, Repr

/-- MessageDecodeError (src/hid/packet.rs); the IoError variant carries no
payload in this model. -/
inductive MessageDecodeError where
  | unexpectedSeq (expected gotten chan : Nat)
  | unexpectedInit (expectedSeq chan : Nat)
  | unexpectedCont (chan : Nat)
  | invalidPayloadLength (chan invalidLen : Nat)
  | invalidCommand (chan : Nat) (reason : InvalidCommandType)
  | invalidParameter (chan : Nat) (reason : String)
  | ioError
  deriving DecidableEq, Repr

/-- MessageDecodeError::get_channel. -/
def MessageDecodeError.getChannel : MessageDecodeError → Nat
  | .unexpectedSeq _ _ chan => chan
  | .unexpectedInit _ chan => chan
  | .unexpectedCont chan => chan
  | .invalidPayloadLength chan _ => chan
  | .invalidCommand chan _ => chan
  | .invalidParameter chan _ => chan
  | .ioError => BROADCAST_CHANNEL

/-- From MessageDecodeError for ErrorCode. -/
def MessageDecodeError.toErrorCode : MessageDecodeError → ErrorCode
  | .unexpectedSeq _ _ _ => .invalidSeq
  | .unexpectedInit _ _ => .other
  | .unexpectedCont _ => .other
  | .invalidPayloadLength _ _ => .invalidLen
  | .invalidCommand _ _ => .invalidCmd
  | .invalidParameter _ _ => .invalidPar
  | .ioError => .other

/-- ErrorCode::to_message. -/
def ErrorCode.toMessage (e : ErrorCode) (channelIdentifier : Nat) : Message :=
  { channelIdentifier, command := .ok .error, payload := [e.toNat] }

/-- From MessageDecodeError for Message. -/
def MessageDecodeError.toMessage (e : MessageDecodeError) : Message :=
  e.toErrorCode.toMessage e.getChannel

/-! ## Per-channel reassembly state (src/hid/packet.rs, ChannelParseState) -/

/-- ChannelParseState: state for parsing a single CTAP-HID message. -/
structure ChannelParseState where
  wipMessage : Option Message
  channelIdentifier : Nat
  remainingPayloadLength : Nat
  nextSeqNum : Nat
  deriving DecidableEq, Repr

/-- ChannelParseState::new. Reads the command (whose parse asserts the MSB:
none models that panic), rejects a declared length above
MAX_MESSAGE_PAYLOAD_SIZE, and seeds the payload with the data prefix. -/
def ChannelParseState.new (init : InitializationPacket) :
    Option (Except MessageDecodeError ChannelParseState) :=
  let channelIdentifier := init.channelIdentifier
  match CommandType.fromPacketCommandIdentifier init.commandIdentifier with
  | none => none
  | some command =>
    if init.payloadLength > MAX_MESSAGE_PAYLOAD_SIZE then
      some (.error (.invalidPayloadLength channelIdentifier init.payloadLength))
    else
      let totalPayloadLength := init.payloadLength
      let bytesToTake := min init.data.length totalPayloadLength
      let payload := init.data.take bytesToTake
      let remainingPayloadLength := totalPayloadLength - bytesToTake
      let wipMessage : Message := { channelIdentifier, command, payload }
      some (.ok { wipMessage := some wipMessage, channelIdentifier,
                  remainingPayloadLength, nextSeqNum := 0 })

/-- ChannelParseState::is_finished. -/
def ChannelParseState.isFinished (s : ChannelParseState) : Bool :=
  s.remainingPayloadLength = 0

/-- ChannelParseState::try_finish, returning the taken message and the
updated state. -/
def ChannelParseState.tryFinish (s : ChannelParseState) :
    Option Message × ChannelParseState :=
  if ¬ s.isFinished then (none, s)
  else (s.wipMessage, { s with wipMessage := none })

/-- ChannelParseState::add_continuation_packet. The leading assert on the
channel id and the impossible-state panic on a sequence number above
MAX_SEQ_NUM are modelled as none. On error the state is returned
unchanged, as in the source (no field is mutated before an early return). -/
def ChannelParseState.addContinuationPacket (s : ChannelParseState)
    (cont : ContinuationPacket) :
    Option (Except MessageDecodeError Unit × ChannelParseState) :=
  if cont.channelIdentifier ≠ s.channelIdentifier then none
  else if s.isFinished ∨ s.wipMessage.isNone then
    some (.error (.unexpectedCont s.channelIdentifier), s)
  else if cont.packetSequence ≠ s.nextSeqNum then
    some (.error (.unexpectedSeq s.nextSeqNum cont.packetSequence
            s.channelIdentifier), s)
  else if cont.packetSequence > MAX_SEQ_NUM then none
  else
    match s.wipMessage with
    | none => none
    | some wip =>
      let bytesToTake := min s.remainingPayloadLength cont.data.length
      some (.ok (), { s with
        wipMessage := some { wip with payload := wip.payload ++ cont.data.take bytesToTake },
        remainingPayloadLength := s.remainingPayloadLength - bytesToTake,
        nextSeqNum := s.nextSeqNum + 1 })

/-! ## Channel allocator (src/hid/channel.rs) -/

/-- ChannelAllocator: the set of in-use channel ids (a BTreeSet in the
source). -/
structure ChannelAllocator where
  used : Finset Nat
  deriving DecidableEq

/-- ChannelAllocator::new. -/
def ChannelAllocator.mkNew : ChannelAllocator := ⟨∅⟩

/-- ChannelAllocator::is_allocated. -/
def ChannelAllocator.isAllocated (a : ChannelAllocator) (chan : Nat) : Bool :=
  chan ∈ a.used

/-- The search loop of ChannelAllocator::allocate: try ids i, i+1, ...
for fuel steps, returning the first id not in use. The source iterates
`for i in 1 .. BROADCAST_CHANNEL`, which this models with start 1 and
fuel BROADCAST_CHANNEL - 1. -/
def allocateAux (used : Finset Nat) : Nat → Nat → Option Nat
  | _, 0 => none
  | i, fuel + 1 => if i ∉ used then some i else allocateAux used (i + 1) fuel

/-- ChannelAllocator::allocate: returns the allocated id (if any) and the
updated allocator. -/
def ChannelAllocator.allocate (a : ChannelAllocator) :
    Option Nat × ChannelAllocator :=
  match allocateAux a.used 1 (BROADCAST_CHANNEL - 1) with
  | some i => (some i, ⟨insert i a.used⟩)
  | none => (none, a)

/-- ChannelAllocator::free. -/
def ChannelAllocator.free (a : ChannelAllocator) (chan : Nat) :
    ChannelAllocator :=
  ⟨a.used.erase chan⟩

/-- The allocator states reachable from ChannelAllocator::new by any
sequence of allocate and free calls. -/
inductive ChannelAllocator.Reachable : ChannelAllocator → Prop where
  | base : ChannelAllocator.Reachable ChannelAllocator.mkNew
  | alloc {a : ChannelAllocator} : ChannelAllocator.Reachable a →
      ChannelAllocator.Reachable a.allocate.2
  | free {a : ChannelAllocator} (chan : Nat) : ChannelAllocator.Reachable a →
      ChannelAllocator.Reachable (a.free chan)

/-! ## INIT command payloads (src/hid/command.rs) -/

/-- Big-endian byte serialization of a u32 (zerocopy U32 of BigEndian). -/
def be32 (n : Nat) : List Nat :=
  [n / 16777216 % 256, n / 65536 % 256, n / 256 % 256, n % 256]

/-- Big-endian byte serialization of a u16 (zerocopy U16 of BigEndian). -/
def be16 (n : Nat) : List Nat :=
  [n / 256 % 256, n % 256]

/-- CAPABILITY_CBOR flag. -/
def CAPABILITY_CBOR : Nat := 0x04

/-- CAPABILITY_NMSG flag. -/
def CAPABILITY_NMSG : Nat := 0x08

/-- The byte serialization of InitCommandResponse::new(nonce, channel_id):
the nonce, the big-endian channel id, ctaphid_version 2, three zero device
version bytes, and capabilities CBOR|NMSG = 0x0C. -/
def initCommandResponseBytes (nonce : List Nat) (channelId : Nat) : List Nat :=
  nonce ++ be32 channelId ++ [2, 0, 0, 0, CAPABILITY_CBOR + CAPABILITY_NMSG]

/-! ## Packet processor (src/hid/packet_processing.rs) -/

/-- ServerError (src/hid/server.rs). -/
inductive ServerError where
  | messageDecodeError (e : MessageDecodeError)
  | channelBusy (busyChan newChan : Nat)
  | invalidChannel (chan : Nat)
  | other (chan : Nat) (reason : String)
  deriving DecidableEq, Repr

/-- From ServerError for ErrorCode. -/
def ServerError.toErrorCode : ServerError → ErrorCode
  | .messageDecodeError e => e.toErrorCode
  | .channelBusy _ _ => .channelBusy
  | .invalidChannel _ => .invalidChannel
  | .other _ _ => .other

/-- From ServerError for Message: the HID ERROR message written back for a
server error. -/
def ServerError.toMessage : ServerError → Message
  | .messageDecodeError e => e.toMessage
  | .channelBusy _ newChan => ErrorCode.channelBusy.toMessage newChan
  | .invalidChannel chan => ErrorCode.invalidChannel.toMessage chan
  | .other chan _ => ErrorCode.other.toMessage chan

/-- PacketProcessingState: the idle/busy state machine state. -/
inductive PacketProcessingState where
  | idle
  | busy (chan : Nat) (decoder : ChannelParseState)
  deriving DecidableEq, Repr

/-- PacketProcessing: the packet processor. -/
structure PacketProcessing where
  chanAlloc : ChannelAllocator
  state : PacketProcessingState
  deriving DecidableEq

/-- PacketProcessing::new. -/
def PacketProcessing.mkNew : PacketProcessing :=
  { chanAlloc := ChannelAllocator.mkNew, state := .idle }

/-- PacketProcessingResult: the result of processing a valid packet. -/
inductive PacketProcessingResult where
  | waitingForMorePackets
  | responseReady (m : Message)
  | ctap2Request (m : Message)
  | aborted
  deriving DecidableEq, Repr

/-- The result of a packet handler call together with the processor state
after the call; none models a panic. -/
abbrev HandlerResult :=
  Option (Except ServerError PacketProcessingResult × PacketProcessing)

/-- PacketProcessing::is_busy. -/
def PacketProcessing.isBusy (pp : PacketProcessing) : Bool :=
  match pp.state with
  | .busy _ _ => true
  | .idle => false

/-- PacketProcessing::abort_transaction (only logs, then sets Idle). -/
def PacketProcessing.abortTransaction (pp : PacketProcessing) :
    PacketProcessing :=
  { pp with state := .idle }

/-- PacketProcessing::handle_init. The payload is validated to be exactly
8 bytes (a LayoutVerified view of the 8-byte InitCommand; failure maps to
InvalidPayloadLength with the length truncated to u16). On the broadcast
channel a fresh id is allocated (allocator exhaustion maps to
ServerError::Other); otherwise the request channel itself is echoed after
aborting any transaction. -/
def PacketProcessing.handleInit (pp : PacketProcessing) (message : Message) :
    HandlerResult :=
  let chan := message.channelIdentifier
  if message.payload.length ≠ 8 then
    some (.error (.messageDecodeError
      (.invalidPayloadLength chan (message.payload.length % 65536))), pp)
  else
    let nonce := message.payload
    if chan = BROADCAST_CHANNEL then
      match pp.chanAlloc.allocate with
      | (none, alloc') =>
        some (.error (.other chan "Could not allocate a channel"),
              { pp with chanAlloc := alloc' })
      | (some newCid, alloc') =>
        some (.ok (.responseReady
          { channelIdentifier := chan, command := message.command,
            payload := initCommandResponseBytes nonce newCid }),
          { pp with chanAlloc := alloc' })
    else
      some (.ok (.responseReady
        { channelIdentifier := chan, command := message.command,
          payload := initCommandResponseBytes nonce chan }),
        pp.abortTransaction)

/-- PacketProcessing::process_message. CBOR messages become CTAP2Request,
INIT is delegated to handle_init, PING echoes the message; every other
command (including an unparseable one) yields InvalidCommand. -/
def PacketProcessing.processMessage (pp : PacketProcessing)
    (message : Message) : HandlerResult :=
  let chan := message.channelIdentifier
  match message.command with
  | .error reason =>
    some (.error (.messageDecodeError (.invalidCommand chan reason)), pp)
  | .ok command =>
    match command with
    | .cbor => some (.ok (.ctap2Request message), pp)
    | .init => pp.handleInit message
    | .ping => some (.ok (.responseReady message), pp)
    | _ =>
      some (.error (.messageDecodeError
        (.invalidCommand chan (.invalidCommand command.toNat))), pp)

/-- PacketProcessing::begin_transaction. Asserts the processor is not busy
(none models the panic). A message completed by the initialization packet
alone is processed at once and the state returns to Idle; otherwise the
source asserts the channel is neither reserved nor broadcast (none models
that panic) and records the Busy state. -/
def PacketProcessing.beginTransaction (pp : PacketProcessing)
    (initPacket : InitializationPacket) : HandlerResult :=
  if pp.isBusy then none
  else
    let chan := initPacket.channelIdentifier
    match ChannelParseState.new initPacket with
    | none => none
    | some (.error decodeErr) =>
      some (.error (.messageDecodeError decodeErr), pp)
    | some (.ok decoder) =>
      match decoder.tryFinish with
      | (some message, decoder') =>
        match PacketProcessing.processMessage
            { pp with state := .busy chan decoder' } message with
        | none => none
        | some (result, pp₂) => some (result, { pp₂ with state := .idle })
      | (none, _) =>
        if chan = RESERVED_CHANNEL ∨ chan = BROADCAST_CHANNEL then none
        else
          some (.ok .waitingForMorePackets,
                { pp with state := .busy chan decoder })

/-- PacketProcessing::handle_packet. -/
def PacketProcessing.handlePacket (pp : PacketProcessing) (packet : Packet) :
    HandlerResult :=
  let newChan := packet.getChannel
  if newChan = RESERVED_CHANNEL then
    some (.error (.invalidChannel newChan), pp)
  else if newChan ≠ BROADCAST_CHANNEL ∧ ¬ pp.chanAlloc.isAllocated newChan then
    some (.error (.invalidChannel newChan), pp)
  else
    match pp.state, packet with
    | .busy chan decoder, pkt =>
      if newChan ≠ chan then
        some (.error (.channelBusy chan newChan), pp)
      else
        match pkt with
        | .initialization init =>
          match init.getCommandType with
          | none => none
          | some ct =>
            if ct = .ok .init ∨ ct = .ok .cancel then
              some (.ok .aborted, pp.abortTransaction)
            else
              some (.error (.channelBusy chan newChan), pp)
        | .continuation cont =>
          match decoder.addContinuationPacket cont with
          | none => none
          | some (.error e, _) =>
            some (.error (.messageDecodeError e), pp.abortTransaction)
          | some (.ok _, decoder') =>
            if decoder'.isFinished then
              match decoder'.tryFinish with
              | (some message, decoder'') =>
                PacketProcessing.processMessage
                  { pp with state := .busy chan decoder'' } message
              | (none, _) => none
            else
              some (.ok .waitingForMorePackets,
                    { pp with state := .busy chan decoder' })
    | .idle, .continuation _ =>
      some (.error (.messageDecodeError (.unexpectedCont newChan)), pp)
    | .idle, .initialization init => pp.beginTransaction init

/-- Fold a list of packets through handle_packet; a panicking call leaves
the state as it was (the process would die there, so no further transition
happens either way). -/
def PacketProcessing.runPackets (pp : PacketProcessing) :
    List Packet → PacketProcessing
  | [] => pp
  | p :: ps =>
    match pp.handlePacket p with
    | none => pp.runPackets ps
    | some (_, pp') => pp'.runPackets ps

/-! ## Concrete example inputs used by witnesses and counterexamples -/

/-- A single-packet PING (wire command byte 0x81) addressed to the broadcast
channel, with declared payload length 0. -/
def pingBroadcastPacket : Packet :=
  .initialization { channelIdentifier := BROADCAST_CHANNEL,
                    commandIdentifier := 0x81, payloadLength := 0,
                    data := List.replicate 57 0 }

/-- A PING addressed to the broadcast channel declaring a 100-byte payload,
so that the message does not fit in the initialization packet. -/
def pingBroadcastLongPacket : Packet :=
  .initialization { channelIdentifier := BROADCAST_CHANNEL,
                    commandIdentifier := 0x81, payloadLength := 100,
                    data := List.replicate 57 0 }

/-- An idle processor whose allocator has channel 1 in use. -/
def ppChan1Idle : PacketProcessing :=
  { chanAlloc := ⟨{1}⟩, state := .idle }

/-- A single-packet CANCEL (wire command byte 0x91) on channel 1 with an
empty payload. -/
def cancelSinglePacket : Packet :=
  .initialization { channelIdentifier := 1, commandIdentifier := 0x91,
                    payloadLength := 0, data := List.replicate 57 0 }

/-- An example in-progress reassembly on channel 1 with 40 bytes left. -/
def exampleDecoder : ChannelParseState :=
  { wipMessage := some { channelIdentifier := 1, command := .ok .ping,
                         payload := List.replicate 57 7 },
    channelIdentifier := 1, remainingPayloadLength := 40, nextSeqNum := 0 }

/-- A processor busy on channel 1 whose allocator has channels 1 and 2. -/
def ppBusyOn1 : PacketProcessing :=
  { chanAlloc := ⟨{1, 2}⟩, state := .busy 1 exampleDecoder }

/-- A continuation packet for channel 2 (conflicting with ppBusyOn1). -/
def contChan2Packet : Packet :=
  .continuation { channelIdentifier := 2, packetSequence := 0,
                  data := List.replicate 59 0 }

/-- Feed a list of continuation packets into a reassembly state one by
one, stopping at the first error or panic. -/
def ChannelParseState.feedAll (s : ChannelParseState) :
    List ContinuationPacket →
      Option (Except MessageDecodeError ChannelParseState)
  | [] => some (.ok s)
  | c :: cs =>
    match s.addContinuationPacket c with
    | none => none
    | some (.error e, _) => some (.error e)
    | some (.ok _, s') => s'.feedAll cs

/-- A well-formed continuation stream for a channel: wire-sized data
fields and consecutive sequence numbers starting at start. -/
def wellFormedStream (chan : Nat) : Nat → List ContinuationPacket → Bool
  | _, [] => true
  | start, c :: cs =>
    c.channelIdentifier == chan && c.packetSequence == start &&
      c.data.length == 59 && wellFormedStream chan (start + 1) cs

/-- A two-packet in-order continuation stream for channel 1. -/
def exampleStream : List ContinuationPacket :=
  [{ channelIdentifier := 1, packetSequence := 0,
     data := List.replicate 59 3 },
   { channelIdentifier := 1, packetSequence := 1,
     data := List.replicate 59 4 }]

/-- An in-progress reassembly on channel 1 with 70 bytes left, so that the
two packets of exampleStream are both needed. -/
def exampleDecoder70 : ChannelParseState :=
  { wipMessage := some { channelIdentifier := 1, command := .ok .msg,
                         payload := List.replicate 57 9 },
    channelIdentifier := 1, remainingPayloadLength := 70, nextSeqNum := 0 }

/-- An out-of-order continuation packet (sequence 5) for channel 1. -/
def wrongSeqPacket : ContinuationPacket :=
  { channelIdentifier := 1, packetSequence := 5,
    data := List.replicate 59 0 }

/-- An 8-byte INIT nonce used in examples. -/
def exampleNonce : List Nat := [1, 2, 3, 4, 5, 6, 7, 8]

/-- A complete INIT message on the broadcast channel with an 8-byte nonce. -/
def broadcastInitMessage : Message :=
  { channelIdentifier := BROADCAST_CHANNEL, command := .ok .init,
    payload := exampleNonce }


/-! ## Byte-level message codec (src/hid/packet.rs) -/

/-- Value of a big-endian byte string. -/
def beVal (bs : List Nat) : Nat := bs.foldl (fun acc b => acc * 256 + b) 0

/-- Right-pad a byte list with zeroes to the given length (the zeroed
remainder of a fixed-size packet data field). -/
def padTo (n : Nat) (l : List Nat) : List Nat :=
  l ++ List.replicate (n - l.length) 0

/-- Fuel-driven body of listChunks. -/
def chunksAux (k : Nat) : Nat → List Nat → List (List Nat)
  | 0, _ => []
  | _, [] => []
  | fuel + 1, l => l.take k :: chunksAux k fuel (l.drop k)

/-- Split a list into consecutive chunks of k elements, the last chunk
possibly shorter (slice::chunks in the source). -/
def listChunks (k : Nat) (l : List Nat) : List (List Nat) :=
  chunksAux k l.length l

/-- MessageEncoderError (src/hid/packet.rs); the IOError variant is never
produced by encode_message and is omitted. -/
inductive MessageEncoderError where
  | payloadTooLarge (got max : Nat)
  deriving DecidableEq, Repr

/-- The continuation reports of an encoded message, one 64-byte report per
59-byte payload chunk with the running sequence number; the source asserts
seq < 0x80 before writing each packet (none models the panic). -/
def encodeConts (chan : Nat) : Nat → List (List Nat) → Option (List (List Nat))
  | _, [] => some []
  | seq, c :: cs =>
    if seq ≥ 0x80 then none
    else
      match encodeConts chan (seq + 1) cs with
      | none => none
      | some rest => some ((be32 chan ++ seq :: padTo 59 c) :: rest)

/-- MessageEncoder::encode_message, viewed as the list of 64-byte reports
written consecutively into the destination buffer. A payload longer than
MAX_MESSAGE_PAYLOAD_SIZE is rejected; encoding a message whose command
failed to parse panics (the expect call), modelled as none. The payload
is split as in split_to_packet_payloads: the first min(57, len) bytes
zero-padded to the 57-byte init data field, the rest in zero-padded
59-byte chunks. The declared length is the payload length as u16. -/
def encodePackets (m : Message) :
    Option (Except MessageEncoderError (List (List Nat))) :=
  if m.payload.length > MAX_MESSAGE_PAYLOAD_SIZE then
    some (.error (.payloadTooLarge m.payload.length MAX_MESSAGE_PAYLOAD_SIZE))
  else
    match m.command with
    | .error _ => none
    | .ok cmd =>
      match encodeConts m.channelIdentifier 0
          (listChunks 59 (m.payload.drop 57)) with
      | none => none
      | some conts =>
        some (.ok ((be32 m.channelIdentifier ++
          (cmd.toNat ||| 0x80) :: be16 (m.payload.length % 65536) ++
          padTo 57 (m.payload.take 57)) :: conts))

/-- The flat byte stream of encode_message (the reports concatenated). -/
def encodeMessage (m : Message) :
    Option (Except MessageEncoderError (List Nat)) :=
  (encodePackets m).map (fun r => r.map List.flatten)

/-- Lookup in the association-list model of the decoder HashMap. -/
def alLookup (l : List (Nat × ChannelParseState)) (k : Nat) :
    Option ChannelParseState :=
  (l.find? (fun e => e.1 == k)).map (fun e => e.2)

/-- Insert or replace a key in the association-list model. -/
def alInsert (l : List (Nat × ChannelParseState)) (k : Nat)
    (v : ChannelParseState) : List (Nat × ChannelParseState) :=
  (k, v) :: l.filter (fun e => ¬ e.1 = k)

/-- Remove a key from the association-list model. -/
def alRemove (l : List (Nat × ChannelParseState)) (k : Nat) :
    List (Nat × ChannelParseState) :=
  l.filter (fun e => ¬ e.1 = k)

/-- MessageDecoder: per-channel parse state (a HashMap in the source,
modelled as an association list). -/
structure MessageDecoder where
  chanPackets : List (Nat × ChannelParseState)
  deriving DecidableEq, Repr

/-- MessageDecoder::new. -/
def MessageDecoder.mkNew : MessageDecoder := ⟨[]⟩

/-- Field views of a 64-byte initialization report (zerocopy layout):
channel in bytes 0-3 big-endian, command byte 4, declared length in bytes
5-6 big-endian, data in bytes 7-63. -/
def parseInitializationPacket (r : List Nat) : InitializationPacket :=
  { channelIdentifier := beVal (r.take 4),
    commandIdentifier := r.getD 4 0,
    payloadLength := beVal ((r.drop 5).take 2),
    data := r.drop 7 }

/-- Field views of a 64-byte continuation report (zerocopy layout):
channel in bytes 0-3 big-endian, sequence byte 4, data in bytes 5-63. -/
def parseContinuationPacket (r : List Nat) : ContinuationPacket :=
  { channelIdentifier := beVal (r.take 4),
    packetSequence := r.getD 4 0,
    data := r.drop 5 }

/-- MessageDecoder::decode_initialization_packet. An entry already present
for the channel yields UnexpectedInit; otherwise a fresh parse state is
built, returned at once when the message is complete, and recorded in the
map when continuations are still needed. -/
def MessageDecoder.decodeInitializationPacket (d : MessageDecoder)
    (r : List Nat) :
    Option (Except MessageDecodeError (Option Message) × MessageDecoder) :=
  let packet := parseInitializationPacket r
  match alLookup d.chanPackets packet.channelIdentifier with
  | some st =>
    some (.error (.unexpectedInit st.nextSeqNum packet.channelIdentifier), d)
  | none =>
    match ChannelParseState.new packet with
    | none => none
    | some (.error e) => some (.error e, d)
    | some (.ok parseState) =>
      match parseState.tryFinish with
      | (some message, _) => some (.ok (some message), d)
      | (none, parseState') =>
        some (.ok none,
          ⟨alInsert d.chanPackets packet.channelIdentifier parseState'⟩)

/-- MessageDecoder::decode_continuation_packet. A missing entry yields
UnexpectedCont; otherwise the packet is added to the entry and, when the
message completes, the entry is removed and the message returned. -/
def MessageDecoder.decodeContinuationPacket (d : MessageDecoder)
    (r : List Nat) :
    Option (Except MessageDecodeError (Option Message) × MessageDecoder) :=
  let packet := parseContinuationPacket r
  match alLookup d.chanPackets packet.channelIdentifier with
  | none => some (.error (.unexpectedCont packet.channelIdentifier), d)
  | some parseState =>
    match parseState.addContinuationPacket packet with
    | none => none
    | some (.error e, parseState') =>
      some (.error e,
        ⟨alInsert d.chanPackets packet.channelIdentifier parseState'⟩)
    | some (.ok _, parseState') =>
      if parseState'.isFinished then
        match parseState'.tryFinish with
        | (some message, _) =>
          some (.ok (some message),
            ⟨alRemove d.chanPackets packet.channelIdentifier⟩)
        | (none, _) => none
      else
        some (.ok none,
          ⟨alInsert d.chanPackets packet.channelIdentifier parseState'⟩)

/-- MessageDecoder::decode_packet: asserts the report is exactly
HID_REPORT_SIZE bytes (none models the panic), then dispatches on bit 7
of byte 4. -/
def MessageDecoder.decodePacket (d : MessageDecoder) (r : List Nat) :
    Option (Except MessageDecodeError (Option Message) × MessageDecoder) :=
  if r.length ≠ HID_REPORT_SIZE then none
  else if (r.getD 4 0).testBit 7 then d.decodeInitializationPacket r
  else d.decodeContinuationPacket r

/-- Run the decoder over a list of reports in order, collecting the
completed messages; stops at the first decode error or panic. -/
def MessageDecoder.runDecoder (d : MessageDecoder) :
    List (List Nat) →
      Option (Except MessageDecodeError (MessageDecoder × List Message))
  | [] => some (.ok (d, []))
  | r :: rs =>
    match d.decodePacket r with
    | none => none
    | some (.error e, _) => some (.error e)
    | some (.ok om, d') =>
      match d'.runDecoder rs with
      | none => none
      | some (.error e) => some (.error e)
      | some (.ok (dfin, ms)) => some (.ok (dfin, om.toList ++ ms))

/-- The message of the repository's round-trip test: channel 1337,
command MSG, payload [1, 3, 3, 7]. -/
def exampleShortMessage : Message :=
  { channelIdentifier := 1337, command := .ok .msg, payload := [1, 3, 3, 7] }

/-- A CBOR value tree (ciborium::value::Value). Text is modelled as its
UTF-8 byte string, so the source's byte-length and bytewise ordering are
exact; the Float variant is omitted (no claim concerns floats). -/
inductive Value where
  | integer (i : Int)
  | bytes (b : List Nat)
  | text (s : List Nat)
  | bool (b : Bool)
  | null
  | tag (t : Nat) (v : Value)
  | array (vs : List Value)
  | map (entries : List (Value × Value))

/-- Bytewise lexicographic comparison (Rust Ord on strings compares the
UTF-8 bytes). -/
def lexCompare : List Nat → List Nat → Ordering
  | [], [] => .eq
  | [], _ :: _ => .lt
  | _ :: _, [] => .gt
  | x :: xs, y :: ys => (compare x y).then (lexCompare xs ys)

/-- cmp_values (src/cbor/ordered_ser.rs): two text keys compare by byte
length then bytewise; two integer keys numerically; any other combination
panics, modelled as none. -/
def cmpValues : Value → Value → Option Ordering
  | .text a, .text b =>
    some ((compare a.length b.length).then (lexCompare a b))
  | .integer a, .integer b => some (compare a b)
  | _, _ => none

/-- The comparator given to sort_by: an entry may precede another when
cmp_values on the keys is not Greater. The none (panic) case never arises
on the well-keyed maps all theorems quantify over. -/
def entryLe (a b : Value × Value) : Bool :=
  match cmpValues a.1 b.1 with
  | some .gt => false
  | _ => true

/-- Ordered insertion, the inner step of the stable sort modelling
slice::sort_by. -/
def insertEntry (x : Value × Value) :
    List (Value × Value) → List (Value × Value)
  | [] => [x]
  | y :: ys => if entryLe y x then y :: insertEntry x ys else x :: y :: ys

/-- Stable insertion sort by the key comparator (slice::sort_by). -/
def sortEntries : List (Value × Value) → List (Value × Value)
  | [] => []
  | x :: xs => insertEntry x (sortEntries xs)

mutual
/-- make_ordered (src/cbor/ordered_ser.rs): recursively sorts every map
in the tree by the CTAP2 canonical comparator, descending into tags,
arrays and map keys and values. -/
def makeOrdered : Value → Value
  | .tag t v => .tag t (makeOrdered v)
  | .array vs => .array (makeOrderedList vs)
  | .map m => .map (sortEntries (makeOrderedEntries m))
  | .integer i => .integer i
  | .bytes b => .bytes b
  | .text s => .text s
  | .bool b => .bool b
  | .null => .null

def makeOrderedList : List Value → List Value
  | [] => []
  | v :: vs => makeOrdered v :: makeOrderedList vs

def makeOrderedEntries : List (Value × Value) → List (Value × Value)
  | [] => []
  | (k, v) :: es => (makeOrdered k, makeOrdered v) :: makeOrderedEntries es
end




/-- Whether a map entry has an integer key. -/
def isIntegerKey (e : Value × Value) : Bool :=
  match e.1 with
  | .integer _ => true
  | _ => false

/-- Whether a map entry has a text key. -/
def isTextKey (e : Value × Value) : Bool :=
  match e.1 with
  | .text _ => true
  | _ => false

/-- A map is well-keyed when its keys are all integers or all text
strings: the domain on which cmp_values is total (elsewhere it panics). -/
def keysWellTyped (entries : List (Value × Value)) : Bool :=
  entries.all isIntegerKey || entries.all isTextKey

mutual
/-- Every map in the tree, at any depth, is well-keyed. -/
def wellKeyed : Value → Bool
  | .tag _ v => wellKeyed v
  | .array vs => wellKeyedList vs
  | .map m => keysWellTyped m && wellKeyedEntries m
  | _ => true

def wellKeyedList : List Value → Bool
  | [] => true
  | v :: vs => wellKeyed v && wellKeyedList vs

def wellKeyedEntries : List (Value × Value) → Bool
  | [] => true
  | (k, v) :: es => wellKeyed k && wellKeyed v && wellKeyedEntries es
end

/-- Bytewise lexicographic less-or-equal. -/
def lexLe (s t : List Nat) : Bool :=
  match lexCompare s t with
  | .gt => false
  | _ => true

/-- The key order stated by the claim, written independently of
cmp_values: integer keys ascending numerically, text keys ascending by
byte length and then bytewise lexicographically. -/
def claimKeyLe (a b : Value) : Bool :=
  match a, b with
  | .integer i, .integer j => decide (i ≤ j)
  | .text s, .text t =>
    decide (s.length < t.length) ||
      (decide (s.length = t.length) && lexLe s t)
  | _, _ => false

/-- Adjacent-pairs sortedness of a key list under claimKeyLe. -/
def sortedKeys : List Value → Bool
  | [] => true
  | [_] => true
  | a :: b :: rest => claimKeyLe a b && sortedKeys (b :: rest)

mutual
/-- Every map in the tree, at any depth (inside arrays, tags, keys and
values alike), has its keys sorted by claimKeyLe. -/
def mapsSorted : Value → Bool
  | .tag _ v => mapsSorted v
  | .array vs => mapsSortedList vs
  | .map m => sortedKeys (m.map Prod.fst) && mapsSortedEntries m
  | _ => true

def mapsSortedList : List Value → Bool
  | [] => true
  | v :: vs => mapsSorted v && mapsSortedList vs

def mapsSortedEntries : List (Value × Value) → Bool
  | [] => true
  | (k, v) :: es => mapsSorted k && mapsSorted v && mapsSortedEntries es
end

mutual
/-- Structural sameness up to reordering of map entries: identical
leaves and tags, arrays pointwise related, and every map of the second
tree a permutation of the recursively-related entries of the first. -/
inductive SameContents : Value → Value → Prop where
  | integer (i : Int) : SameContents (.integer i) (.integer i)
  | bytes (b : List Nat) : SameContents (.bytes b) (.bytes b)
  | text (s : List Nat) : SameContents (.text s) (.text s)
  | bool (b : Bool) : SameContents (.bool b) (.bool b)
  | null : SameContents .null .null
  | tag (t : Nat) {v w : Value} : SameContents v w →
      SameContents (.tag t v) (.tag t w)
  | array {vs ws : List Value} : SameList vs ws →
      SameContents (.array vs) (.array ws)
  | map {es gs fs : List (Value × Value)} : SameEntries es gs →
      gs.Perm fs → SameContents (.map es) (.map fs)

inductive SameList : List Value → List Value → Prop where
  | nil : SameList [] []
  | cons {v w : Value} {vs ws : List Value} : SameContents v w →
      SameList vs ws → SameList (v :: vs) (w :: ws)

inductive SameEntries :
    List (Value × Value) → List (Value × Value) → Prop where
  | nil : SameEntries [] []
  | cons {k1 v1 k2 v2 : Value} {es fs : List (Value × Value)} :
      SameContents k1 k2 → SameContents v1 v2 → SameEntries es fs →
      SameEntries ((k1, v1) :: es) ((k2, v2) :: fs)
end

/-- An entry precedes another in the sort exactly when entryLe holds. -/
def entryLeP (a b : Value × Value) : Prop := entryLe a b = true

/-- The CBOR value of the repository's ordering test: the integer-keyed
map with keys 5, 3, 4 whose value at 4 is the map with keys 9, 8. -/
def exampleCborValue : Value :=
  .map [(.integer 5, .integer 5), (.integer 3, .integer 3),
        (.integer 4, .map [(.integer 9, .integer 9),
                           (.integer 8, .integer 8)])]


/-! ## Keyed-CBOR codec (src/cbor/key_mapped.rs, key_mapped_ser.rs,
key_mapped_de.rs, src/authenticator/api.rs) -/

/-- Field lookup in a declared (field_name, integer_tag) mapping
(VecKeymappable::field_map). -/
def lookupField (fm : List (String × Nat)) (name : String) : Option Nat :=
  (fm.find? (fun p => p.1 == name)).map (fun p => p.2)

/-- Serialization of KeymappedStruct (key_mapped_ser.rs): the struct is
emitted as a CBOR map with each declared field's key translated through
the forward map. Keymappable::map_field (key_mapped.rs) returns an
Option, which serde serializes transparently: Some(tag) as the tag,
None as null. -/
def encodeKeymapped (fm : List (String × Nat))
    (fields : List (String × Value)) : Value :=
  .map (fields.map (fun f =>
    (match lookupField fm f.1 with
     | some tag => Value.integer tag
     | none => Value.null, f.2)))

/-- KeyMappedMapAccess::next_key_seed (key_mapped_de.rs, lines 280-288):
the body is todo!(), an unconditional panic, modelled as none. -/
def nextKeySeed : Option (Option String) := none

/-- KeyMappedVisitor::visit_map (key_mapped_de.rs): the wrapped struct
visitor drives the map access by requesting the first key through
next_key_seed — before looking at any entry, even of an empty map — so
it inherits the panic unconditionally. -/
def visitMapKeymapped (_entries : List (Value × Value)) :
    Option (List (String × Value)) :=
  match nextKeySeed with
  | none => none
  | some _ => some []

/-- Deserialization of KeymappedStruct<T, u8> (key_mapped_de.rs):
deserialize_struct wraps the struct visitor in KeyMappedVisitor and
reads a map; a non-map input is a deserialization error, a map input
reaches visit_map. The field mapping argument feeds the inverse key
mapper, which the panicking map access never calls. -/
def decodeKeymapped (_fm : List (String × Nat)) (v : Value) :
    Option (Except Unit (List (String × Value))) :=
  match v with
  | .map entries =>
    match visitMapKeymapped entries with
    | none => none
    | some fields => some (.ok fields)
  | _ => some (.error ())

/-- CTAPCommand (src/authenticator/command.rs). -/
inductive CTAPCommand where
  | makeCredential
  | getAssertion
  | getNextAssertion
  | getInfo
  | getClientPin
  | reset
  | bioEnrollment
  | selection
  | largeBlobs
  | config
  deriving DecidableEq, Repr

/-- CTAPCommand::try_from on a command byte. -/
def CTAPCommand.fromNat? (b : Nat) : Option CTAPCommand :=
  if b = 0x01 then some .makeCredential
  else if b = 0x02 then some .getAssertion
  else if b = 0x08 then some .getNextAssertion
  else if b = 0x04 then some .getInfo
  else if b = 0x06 then some .getClientPin
  else if b = 0x07 then some .reset
  else if b = 0x09 then some .bioEnrollment
  else if b = 0x0B then some .selection
  else if b = 0x0C then some .largeBlobs
  else if b = 0x0D then some .config
  else none

/-- The CTAP status codes from src/authenticator/command.rs this model
needs. -/
inductive StatusCodeM where
  | ctap1ErrInvalidCommand
  | ctap2ErrInvalidCbor
  deriving DecidableEq, Repr

/-- CTAP2Command (src/authenticator/api.rs); MakeCredential carries its
decoded parameter record. -/
inductive CTAP2Command where
  | getInfo
  | makeCredential (params : List (String × Value))
  | reset

/-- The (field_name, integer_tag) mapping declared by
AuthenticatorMakeCredentialParams
(src/authenticator/types/make_credential.rs). -/
def makeCredentialFieldMappings : List (String × Nat) :=
  [("client_data_hash", 0x01), ("rp", 0x02), ("user", 0x03),
   ("pub_key_cred_params", 0x04), ("exclude_list", 0x05),
   ("extensions", 0x06), ("options", 0x07), ("pin_uv_auth_param", 0x08),
   ("pin_uv_auth_protocol", 0x09), ("enterprise_attestation", 0x0A)]

/-- CTAP2Command::from_ctap_cbor (src/authenticator/api.rs): an
unrecognized command byte fails with InvalidCommand; MakeCredential
decodes its CBOR payload (given here as its decoded value tree) as
KeymappedStruct<AuthenticatorMakeCredentialParams, u8>, mapping decode
failures to a deserialization error; GetInfo and Reset carry no payload;
every other recognized command is todo!() (panic). -/
def CTAP2Command.fromCtapCbor (commandByte : Nat) (payload : Value) :
    Option (Except StatusCodeM CTAP2Command) :=
  match CTAPCommand.fromNat? commandByte with
  | none => some (.error .ctap1ErrInvalidCommand)
  | some .makeCredential =>
    match decodeKeymapped makeCredentialFieldMappings payload with
    | none => none
    | some (.error _) => some (.error .ctap2ErrInvalidCbor)
    | some (.ok fields) => some (.ok (.makeCredential fields))
  | some .getInfo => some (.ok .getInfo)
  | some .reset => some (.ok .reset)
  | some _ => none

/-- A conformant MakeCredential parameter record: the required fields
client_data_hash, rp, user and pub_key_cred_params, plus options. -/
def exampleMakeCredentialRecord : List (String × Value) :=
  [("client_data_hash", .bytes [0xA8, 0x30, 0xE6, 0x41]),
   ("rp", .map [(.text [0x69, 0x64], .text [0x77, 0x61])]),
   ("user", .map [(.text [0x69, 0x64], .bytes [0x8A, 0x89])]),
   ("pub_key_cred_params",
     .array [.map [(.text [0x61, 0x6C, 0x67], .integer (-7))]]),
   ("options", .map [(.text [0x75, 0x76], .bool true)])]

/-- Search lemma for the allocate loop: a successful search returns the
least id not in use within the searched window. -/
theorem allocateAux_some_spec (used : Finset Nat) :
    ∀ fuel i j, allocateAux used i fuel = some j →
      i ≤ j ∧ j < i + fuel ∧ j ∉ used ∧ ∀ k, i ≤ k → k < j → k ∈ used := by
  intro fuel
  induction fuel with
  | zero => intro i j h; simp [allocateAux] at h
  | succ n ih =>
    intro i j h
    simp only [allocateAux] at h
    by_cases hc : i ∉ used
    · rw [if_pos hc] at h
      cases h
      exact ⟨le_refl _, by omega, hc, fun k hk1 hk2 => absurd hk2 (by omega)⟩
    · rw [if_neg hc] at h
      obtain ⟨h1, h2, h3, h4⟩ := ih (i + 1) j h
      refine ⟨by omega, by omega, h3, ?_⟩
      intro k hk1 hk2
      rcases Nat.eq_or_lt_of_le hk1 with heq | hlt
      · exact heq ▸ not_not.mp hc
      · exact h4 k hlt hk2

/-- Search lemma for the allocate loop: the search fails exactly when
every id in the searched window is in use. -/
theorem allocateAux_none_iff (used : Finset Nat) :
    ∀ fuel i, allocateAux used i fuel = none ↔
      ∀ k, i ≤ k → k < i + fuel → k ∈ used := by
  intro fuel
  induction fuel with
  | zero =>
    intro i
    simp only [allocateAux]
    constructor
    · intro _ k hk1 hk2; omega
    · intro _; trivial
  | succ n ih =>
    intro i
    simp only [allocateAux]
    by_cases hc : i ∉ used
    · rw [if_pos hc]
      constructor
      · intro h; cases h
      · intro h; exact absurd (h i (le_refl _) (by omega)) hc
    · rw [if_neg hc]
      rw [ih (i + 1)]
      constructor
      · intro h k hk1 hk2
        rcases Nat.eq_or_lt_of_le hk1 with heq | hlt
        · exact heq ▸ not_not.mp hc
        · exact h k hlt (by omega)
      · intro h k hk1 hk2
        exact h k (by omega) (by omega)

/-- Every reachable allocator state only uses ids in [1, 0xFFFFFFFE]. -/
theorem reachable_bounds (a : ChannelAllocator)
    (h : ChannelAllocator.Reachable a) :
    ∀ x ∈ a.used, 1 ≤ x ∧ x ≤ 0xFFFFFFFE := by
  induction h with
  | base => simp [ChannelAllocator.mkNew]
  | @alloc b _hb ih =>
    intro x hx
    simp only [ChannelAllocator.allocate] at hx
    split at hx
    next i heq =>
      simp only [Finset.mem_insert] at hx
      rcases hx with rfl | hx
      · obtain ⟨h1, h2, _, _⟩ := allocateAux_some_spec b.used _ _ _ heq
        simp only [BROADCAST_CHANNEL] at h2
        omega
      · exact ih x hx
    next => exact ih x hx
  | @free b chan _hb ih =>
    intro x hx
    exact ih x (Finset.mem_of_mem_erase hx)

/-- C9 (confirmed): allocate returns the lowest id in [1, 0xFFFFFFFE] not
currently in use (and records it as used), fails exactly when all such ids
are in use, never returns the reserved id 0 or the broadcast id, returns
distinct ids on two calls without an intervening free, and in every
reachable allocator state the broadcast id is not allocated. -/
theorem channel_allocator_spec :
    (∀ (a : ChannelAllocator) (i : Nat) (a' : ChannelAllocator),
        a.allocate = (some i, a') →
          1 ≤ i ∧ i ≤ 0xFFFFFFFE ∧ i ∉ a.used ∧
          (∀ k, 1 ≤ k → k < i → k ∈ a.used) ∧ a'.used = insert i a.used)
    ∧ (∀ a : ChannelAllocator, a.allocate.1 = none ↔
        ∀ k, 1 ≤ k → k ≤ 0xFFFFFFFE → k ∈ a.used)
    ∧ (∀ (a : ChannelAllocator) i a' j a'', a.allocate = (some i, a') →
        a'.allocate = (some j, a'') → i ≠ j)
    ∧ (∀ a : ChannelAllocator, ChannelAllocator.Reachable a →
        a.isAllocated BROADCAST_CHANNEL = false) := by
  have hsome : ∀ (a : ChannelAllocator) (i : Nat) (a' : ChannelAllocator),
      a.allocate = (some i, a') →
        1 ≤ i ∧ i ≤ 0xFFFFFFFE ∧ i ∉ a.used ∧
        (∀ k, 1 ≤ k → k < i → k ∈ a.used) ∧ a'.used = insert i a.used := by
    intro a i a' h
    simp only [ChannelAllocator.allocate] at h
    split at h
    next j heq =>
      obtain ⟨rfl, rfl⟩ : i = j ∧ a' = ⟨insert j a.used⟩ := by
        cases h; exact ⟨rfl, rfl⟩
      obtain ⟨h1, h2, h3, h4⟩ := allocateAux_some_spec a.used _ _ _ heq
      simp only [BROADCAST_CHANNEL] at h2
      exact ⟨h1, by omega, h3, fun k hk1 hk2 => h4 k hk1 hk2, rfl⟩
    next => cases h
  refine ⟨hsome, ?_, ?_, ?_⟩
  · intro a
    simp only [ChannelAllocator.allocate]
    split
    next j heq =>
      simp only []
      constructor
      · intro h; cases h
      · intro h
        obtain ⟨h1, h2, h3, _⟩ := allocateAux_some_spec a.used _ _ _ heq
        simp only [BROADCAST_CHANNEL] at h2
        exact absurd (h j h1 (by omega)) h3
    next heq =>
      simp only []
      rw [allocateAux_none_iff] at heq
      constructor
      · intro _ k hk1 hk2
        exact heq k hk1 (by simp only [BROADCAST_CHANNEL]; omega)
      · intro _; trivial
  · intro a i a' j a'' h1 h2
    obtain ⟨_, _, _, _, hused⟩ := hsome a i a' h1
    obtain ⟨_, _, hj, _, _⟩ := hsome a' j a'' h2
    intro hij
    apply hj
    rw [hused, ← hij]
    exact Finset.mem_insert_self i a.used
  · intro a hr
    have hb := reachable_bounds a hr
    simp only [ChannelAllocator.isAllocated]
    by_contra hc
    simp only [Bool.not_eq_false, decide_eq_true_eq] at hc
    have := hb _ hc
    simp only [BROADCAST_CHANNEL] at this
    omega

/-- Witness for the C9 theorem: the fresh allocator allocates the id 1,
with the expected properties, and a fresh allocator does not report the
broadcast channel as allocated. -/
theorem channel_allocator_spec_witness :
    ChannelAllocator.mkNew.allocate = (some 1, ⟨{1}⟩)
    ∧ (1 ∉ ChannelAllocator.mkNew.used)
    ∧ ChannelAllocator.mkNew.isAllocated BROADCAST_CHANNEL = false :=
  ⟨by decide,
   (channel_allocator_spec.1 ChannelAllocator.mkNew 1 ⟨{1}⟩ (by decide)).2.2.1,
   channel_allocator_spec.2.2.2 ChannelAllocator.mkNew
     ChannelAllocator.Reachable.base⟩

/-- Allocate only ever grows the set of used channel ids. -/
theorem allocate_used_mono (a : ChannelAllocator) :
    a.used ⊆ a.allocate.2.used := by
  simp only [ChannelAllocator.allocate]
  split
  next => exact Finset.subset_insert _ _
  next => exact Finset.Subset.refl _

/-- handle_init never removes a channel id from the allocator. -/
theorem handleInit_alloc_mono (pp : PacketProcessing) (m : Message)
    (r : Except ServerError PacketProcessingResult) (pp' : PacketProcessing)
    (h : pp.handleInit m = some (r, pp')) :
    pp.chanAlloc.used ⊆ pp'.chanAlloc.used := by
  simp only [PacketProcessing.handleInit] at h
  split at h
  · cases h; exact Finset.Subset.refl _
  · split at h
    · split at h
      next heq =>
        cases h
        have := allocate_used_mono pp.chanAlloc
        rw [heq] at this
        exact this
      next heq =>
        cases h
        have := allocate_used_mono pp.chanAlloc
        rw [heq] at this
        exact this
    · cases h; exact Finset.Subset.refl _

/-- process_message never removes a channel id from the allocator. -/
theorem processMessage_alloc_mono (pp : PacketProcessing) (m : Message)
    (r : Except ServerError PacketProcessingResult) (pp' : PacketProcessing)
    (h : pp.processMessage m = some (r, pp')) :
    pp.chanAlloc.used ⊆ pp'.chanAlloc.used := by
  simp only [PacketProcessing.processMessage] at h
  split at h
  · cases h; exact Finset.Subset.refl _
  · split at h
    · cases h; exact Finset.Subset.refl _
    · exact handleInit_alloc_mono _ _ _ _ h
    · cases h; exact Finset.Subset.refl _
    · cases h; exact Finset.Subset.refl _

/-- begin_transaction never removes a channel id from the allocator. -/
theorem beginTransaction_alloc_mono (pp : PacketProcessing)
    (init : InitializationPacket)
    (r : Except ServerError PacketProcessingResult) (pp' : PacketProcessing)
    (h : pp.beginTransaction init = some (r, pp')) :
    pp.chanAlloc.used ⊆ pp'.chanAlloc.used := by
  simp only [PacketProcessing.beginTransaction] at h
  split at h
  · cases h
  · split at h
    · cases h
    · cases h; exact Finset.Subset.refl _
    · split at h
      · split at h
        · cases h
        next h2 =>
          cases h
          have := processMessage_alloc_mono _ _ _ _ h2
          simpa using this
      · split at h
        · cases h
        · cases h; exact Finset.Subset.refl _

/-- handle_packet never removes a channel id from the allocator. -/
theorem handlePacket_alloc_mono (pp : PacketProcessing) (packet : Packet)
    (r : Except ServerError PacketProcessingResult) (pp' : PacketProcessing)
    (h : pp.handlePacket packet = some (r, pp')) :
    pp.chanAlloc.used ⊆ pp'.chanAlloc.used := by
  simp only [PacketProcessing.handlePacket] at h
  split at h
  · cases h; exact Finset.Subset.refl _
  · split at h
    · cases h; exact Finset.Subset.refl _
    · split at h
      next =>
        split at h
        · cases h; exact Finset.Subset.refl _
        · split at h
          · split at h
            · cases h
            · split at h
              · cases h; exact Finset.Subset.refl _
              · cases h; exact Finset.Subset.refl _
          · split at h
            · cases h
            · cases h; exact Finset.Subset.refl _
            · split at h
              · split at h
                · have := processMessage_alloc_mono _ _ _ _ h
                  simpa using this
                · cases h
              · cases h; exact Finset.Subset.refl _
      next => cases h; exact Finset.Subset.refl _
      next => exact beginTransaction_alloc_mono _ _ _ _ h

/-- C10 (confirmed): packet processing never frees a channel: every
non-panicking handle_packet call preserves every allocated channel id, and
hence over any sequence of handle_packet calls a channel, once allocated,
stays allocated. -/
theorem channels_never_freed :
    (∀ (pp : PacketProcessing) (packet : Packet) r pp',
        pp.handlePacket packet = some (r, pp') →
        ∀ c, pp.chanAlloc.isAllocated c = true →
          pp'.chanAlloc.isAllocated c = true)
    ∧ (∀ (pp : PacketProcessing) (packets : List Packet) (c : Nat),
        pp.chanAlloc.isAllocated c = true →
        (pp.runPackets packets).chanAlloc.isAllocated c = true) := by
  have hstep : ∀ (pp : PacketProcessing) (packet : Packet) r pp',
      pp.handlePacket packet = some (r, pp') →
      ∀ c, pp.chanAlloc.isAllocated c = true →
        pp'.chanAlloc.isAllocated c = true := by
    intro pp packet r pp' h c hc
    simp only [ChannelAllocator.isAllocated, decide_eq_true_eq] at hc ⊢
    exact handlePacket_alloc_mono pp packet r pp' h hc
  refine ⟨hstep, ?_⟩
  intro pp packets
  induction packets generalizing pp with
  | nil => intro c hc; simpa [PacketProcessing.runPackets] using hc
  | cons p ps ih =>
    intro c hc
    simp only [PacketProcessing.runPackets]
    split
    next => exact ih pp c hc
    next r pp' heq => exact ih pp' c (hstep pp p r pp' heq c hc)

/-- Witness for the C10 theorem: channel 1 stays allocated across a
concrete sequence of handle_packet calls. -/
theorem channels_never_freed_witness :
    ppChan1Idle.chanAlloc.isAllocated 1 = true
    ∧ (ppChan1Idle.runPackets
        [cancelSinglePacket, pingBroadcastPacket]).chanAlloc.isAllocated 1 =
        true :=
  ⟨by decide,
   channels_never_freed.2 ppChan1Idle
     [cancelSinglePacket, pingBroadcastPacket] 1 (by decide)⟩

/-- C6 (confirmed): a continuation packet whose sequence number differs
from the expected one is rejected with UnexpectedSeq{expected, gotten}
and the assembly state is returned unchanged; and feeding any well-formed
in-order continuation stream (consecutive sequence numbers from the
expected one, at most 128 packets in total, enough payload left to need
every packet) never produces an error.
For the error case, "unchanged" is literal: the returned state is the
input state, matching the source, which returns before any mutation. -/
theorem sequence_number_checking :
    (∀ (s : ChannelParseState) (cont : ContinuationPacket),
        cont.channelIdentifier = s.channelIdentifier →
        s.isFinished = false → s.wipMessage.isSome = true →
        cont.packetSequence ≠ s.nextSeqNum →
        s.addContinuationPacket cont =
          some (.error (.unexpectedSeq s.nextSeqNum cont.packetSequence
            s.channelIdentifier), s))
    ∧ (∀ (conts : List ContinuationPacket) (s : ChannelParseState),
        s.wipMessage.isSome = true →
        wellFormedStream s.channelIdentifier s.nextSeqNum conts = true →
        s.nextSeqNum + conts.length ≤ MAX_SEQ_NUM + 1 →
        (conts.length = 0 ∨
          59 * (conts.length - 1) < s.remainingPayloadLength) →
        ∃ s', s.feedAll conts = some (.ok s')) := by
  constructor
  · intro s cont hchan hfin hwip hseq
    simp only [ChannelParseState.addContinuationPacket]
    rw [if_neg (by simp [hchan]), if_neg (by
      simp only [hfin, Option.isNone_iff_eq_none]
      rintro (h | h)
      · exact absurd h (by simp)
      · rw [h] at hwip; simp at hwip)]
    rw [if_pos hseq]
  · intro conts
    induction conts with
    | nil =>
      intro s hwip hwf hbound hrem
      exact ⟨s, rfl⟩
    | cons c cs ih =>
      intro s hwip hwf hbound hrem
      simp only [wellFormedStream, Bool.and_eq_true, beq_iff_eq,
        Nat.cast_ofNat] at hwf
      obtain ⟨⟨⟨hchan, hseq⟩, hdata⟩, hwf'⟩ := hwf
      simp only [List.length_cons] at hbound hrem
      simp only [MAX_SEQ_NUM] at hbound
      have hremc : 0 < s.remainingPayloadLength := by
        rcases hrem with h | h
        · omega
        · omega
      obtain ⟨wip, hwipeq⟩ := Option.isSome_iff_exists.mp hwip
      simp only [ChannelParseState.feedAll]
      have hadd : s.addContinuationPacket c = some (.ok (),
          { s with
            wipMessage := some { wip with
              payload := wip.payload ++
                c.data.take (min s.remainingPayloadLength c.data.length) },
            remainingPayloadLength :=
              s.remainingPayloadLength -
                min s.remainingPayloadLength c.data.length,
            nextSeqNum := s.nextSeqNum + 1 }) := by
        simp only [ChannelParseState.addContinuationPacket]
        rw [if_neg (by simp [hchan]), if_neg (by
          simp only [ChannelParseState.isFinished, Option.isNone_iff_eq_none]
          rintro (h | h)
          · simp only [decide_eq_true_eq] at h; omega
          · rw [h] at hwipeq; cases hwipeq), if_neg (by simp [hseq]),
          if_neg (by simp only [hseq, MAX_SEQ_NUM, gt_iff_lt, not_lt]; omega)]
        rw [hwipeq]
      rw [hadd]
      apply ih
      · simp
      · simpa [hseq] using hwf'
      · simp only [MAX_SEQ_NUM]
        omega
      · rcases cs.length.eq_zero_or_pos with h0 | hpos
        · exact Or.inl h0
        · right
          show 59 * (cs.length - 1) <
            s.remainingPayloadLength -
              min s.remainingPayloadLength c.data.length
          rw [hdata]
          rcases hrem with h | h
          · omega
          · omega


/-- Witness for the C6 theorem: a sequence-5 packet against an assembly
expecting sequence 0 yields UnexpectedSeq{0, 5}, and a two-packet in-order
stream is accepted. -/
theorem sequence_number_checking_witness :
    exampleDecoder.addContinuationPacket wrongSeqPacket =
      some (.error (.unexpectedSeq 0 5 1), exampleDecoder)
    ∧ ∃ s', exampleDecoder70.feedAll exampleStream = some (.ok s') :=
  ⟨sequence_number_checking.1 exampleDecoder wrongSeqPacket rfl
     (by decide) (by decide) (by decide),
   sequence_number_checking.2 exampleStream exampleDecoder70 (by decide)
     (by decide) (by decide) (Or.inr (by decide))⟩

end Softauth

namespace Softauth

/-! ## Theorems -/

/-- Evaluation lemma: wire byte 0x91 parses to CANCEL. -/
theorem fromPacket_0x91 :
    CommandType.fromPacketCommandIdentifier 0x91 = some (.ok .cancel) := by
  decide

/-- Helper: a processor whose state is idle is equal to itself with the
state field set to idle. -/
theorem set_idle_of_idle {pp : PacketProcessing} (h : pp.state = .idle) :
    ({ pp with state := .idle } : PacketProcessing) = pp := by
  cases pp
  simp_all

/-- C4 (corrected, counterexample): a complete single-packet CANCEL on the
allocated, non-reserved channel 1 while Idle is not silently ignored: the
processor returns the InvalidCommand decode error (carrying the raw CANCEL
byte 0x11) rather than success without a response. -/
theorem cancel_while_idle_returns_invalid_command_counterexample :
    ppChan1Idle.handlePacket cancelSinglePacket =
      some (.error (.messageDecodeError
        (.invalidCommand 1 (.invalidCommand 0x11))), ppChan1Idle)
    ∧ (ppChan1Idle.handlePacket cancelSinglePacket).map
        (fun p => p.1.isOk) = some false := by
  constructor
  · decide
  · decide

/-- C4 (corrected): when the processor is Idle and receives a complete
single-packet CANCEL message (wire byte 0x91, declared length at most the
57-byte data field) on an allocated, non-reserved channel, handle_packet
returns the InvalidCommand decode error carrying the raw command byte 0x11
(surfaced as HID error 0x01), and the processor is returned unchanged, in
particular still Idle; the message is not silently ignored. -/
theorem cancel_while_idle_returns_invalid_command (pp : PacketProcessing)
    (chan pl : Nat) (data : List Nat)
    (hidle : pp.state = .idle)
    (halloc : pp.chanAlloc.isAllocated chan = true)
    (hchan0 : chan ≠ RESERVED_CHANNEL)
    (hdata : data.length = 57) (hpl : pl ≤ 57) :
    pp.handlePacket (.initialization
      { channelIdentifier := chan, commandIdentifier := 0x91,
        payloadLength := pl, data := data }) =
      some (.error (.messageDecodeError
        (.invalidCommand chan (.invalidCommand 0x11))), pp) := by
  obtain ⟨alloc, st⟩ := pp
  simp only [PacketProcessing.state] at hidle
  subst hidle
  simp only [PacketProcessing.handlePacket, Packet.getChannel]
  rw [if_neg hchan0, if_neg (by simp [halloc])]
  simp only [PacketProcessing.beginTransaction, PacketProcessing.isBusy]
  rw [if_neg (by simp)]
  simp only [ChannelParseState.new, fromPacket_0x91]
  rw [if_neg (by simp [MAX_MESSAGE_PAYLOAD_SIZE, INIT_PACKET_PAYLOAD_SIZE,
        CONT_PACKET_PAYLOAD_SIZE, MAX_SEQ_NUM, HID_REPORT_SIZE]; omega)]
  have hmin : min data.length pl = pl := by omega
  simp only [hmin, ChannelParseState.tryFinish, ChannelParseState.isFinished]
  simp only [Nat.sub_self]
  simp only [PacketProcessing.processMessage, CommandType.toNat]
  simp

/-- Witness for the amended C4 theorem at the concrete processor
ppChan1Idle and the concrete packet cancelSinglePacket. -/
theorem cancel_while_idle_returns_invalid_command_witness :
    ppChan1Idle.state = .idle
    ∧ ppChan1Idle.chanAlloc.isAllocated 1 = true
    ∧ ppChan1Idle.handlePacket cancelSinglePacket =
        some (.error (.messageDecodeError
          (.invalidCommand 1 (.invalidCommand 0x11))), ppChan1Idle) :=
  ⟨rfl, by decide,
    cancel_while_idle_returns_invalid_command ppChan1Idle 1 0
      (List.replicate 57 0) rfl (by decide) (by decide) (by decide)
      (by decide)⟩

/-- C5 (confirmed): while the processor is Busy on channel chan, any packet
whose channel is allocated, non-reserved and different from chan is
rejected with ChannelBusy{busy_chan = chan, new_chan}, the processor
(including the in-progress assembly) is returned exactly unchanged, and
the error surfaces as the HID ERROR message with code 0x06 on the new
channel. -/
theorem busy_conflicting_channel_rejected (pp : PacketProcessing)
    (chan : Nat) (decoder : ChannelParseState) (packet : Packet)
    (hbusy : pp.state = .busy chan decoder)
    (hne : packet.getChannel ≠ chan)
    (h0 : packet.getChannel ≠ RESERVED_CHANNEL)
    (halloc : pp.chanAlloc.isAllocated packet.getChannel = true) :
    pp.handlePacket packet =
      some (.error (.channelBusy chan packet.getChannel), pp)
    ∧ (ServerError.channelBusy chan packet.getChannel).toMessage =
        { channelIdentifier := packet.getChannel, command := .ok .error,
          payload := [0x06] } := by
  refine ⟨?_, rfl⟩
  obtain ⟨alloc, st⟩ := pp
  simp only [PacketProcessing.state] at hbusy
  subst hbusy
  simp only [PacketProcessing.handlePacket]
  rw [if_neg h0, if_neg (fun h => h.2 (by simp [halloc]))]
  cases packet with
  | initialization p => simp only [Packet.getChannel] at hne ⊢; rw [if_pos hne]
  | continuation p => simp only [Packet.getChannel] at hne ⊢; rw [if_pos hne]

/-- Witness for the C5 theorem: a processor busy on channel 1 receiving a
continuation packet on the allocated channel 2. -/
theorem busy_conflicting_channel_rejected_witness :
    ppBusyOn1.state = .busy 1 exampleDecoder
    ∧ ppBusyOn1.handlePacket contChan2Packet =
        some (.error (.channelBusy 1 2), ppBusyOn1) :=
  ⟨rfl,
    (busy_conflicting_channel_rejected ppBusyOn1 1 exampleDecoder
      contChan2Packet rfl (by decide) (by decide) (by decide)).1⟩

/-- C3 (code_bug, behavior at the failing inputs): contrary to the claim
that every broadcast initialization packet whose command is not INIT fails
with InvalidChannel, the processor answers a complete single-packet PING
on the broadcast channel with a PING echo on the broadcast channel, and it
panics (assert "Must not be broadcast" in begin_transaction) on a
broadcast PING whose declared payload length needs continuation
packets. -/
theorem broadcast_non_init_not_rejected :
    PacketProcessing.mkNew.handlePacket pingBroadcastPacket =
      some (.ok (.responseReady
        { channelIdentifier := BROADCAST_CHANNEL, command := .ok .ping,
          payload := [] }), PacketProcessing.mkNew)
    ∧ PacketProcessing.mkNew.handlePacket pingBroadcastLongPacket = none := by
  constructor <;> decide

/-- C7 (confirmed): for every complete INIT message with an exactly 8-byte
payload, handle_init replies on the request channel with the 17-byte
payload nonce ++ big-endian cid ++ [0x02, 0x00, 0x00, 0x00, 0x0C], where
cid is freshly allocated on broadcast (provided allocation succeeds) and
the request channel itself otherwise; any other payload length fails with
InvalidPayloadLength (length truncated to u16). -/
theorem init_message_response (pp : PacketProcessing) (m : Message) :
    (m.payload.length = 8 →
      ((m.channelIdentifier = BROADCAST_CHANNEL →
        ∀ cid alloc', pp.chanAlloc.allocate = (some cid, alloc') →
          pp.handleInit m = some (.ok (.responseReady
            { channelIdentifier := m.channelIdentifier,
              command := m.command,
              payload := m.payload ++ be32 cid ++ [2, 0, 0, 0, 0x0C] }),
            { pp with chanAlloc := alloc' }))
      ∧ (m.channelIdentifier ≠ BROADCAST_CHANNEL →
          pp.handleInit m = some (.ok (.responseReady
            { channelIdentifier := m.channelIdentifier,
              command := m.command,
              payload := m.payload ++ be32 m.channelIdentifier ++
                [2, 0, 0, 0, 0x0C] }),
            pp.abortTransaction))
      ∧ ∀ c, (m.payload ++ be32 c ++ [2, 0, 0, 0, 0x0C]).length = 17))
    ∧ (m.payload.length ≠ 8 →
        pp.handleInit m = some (.error (.messageDecodeError
          (.invalidPayloadLength m.channelIdentifier
            (m.payload.length % 65536))), pp)) := by
  constructor
  · intro h8
    refine ⟨?_, ?_, ?_⟩
    · intro hb cid alloc' halloc
      simp only [PacketProcessing.handleInit, h8, hb]
      simp [halloc, initCommandResponseBytes, CAPABILITY_CBOR,
        CAPABILITY_NMSG, hb]
    · intro hb
      simp only [PacketProcessing.handleInit, h8]
      simp [hb, initCommandResponseBytes, CAPABILITY_CBOR, CAPABILITY_NMSG]
    · intro c
      simp [be32, h8]
  · intro h8
    simp [PacketProcessing.handleInit, h8]

/-- Witness for the C7 theorem: a fresh processor receiving the broadcast
INIT message with nonce [1, 2, 3, 4, 5, 6, 7, 8] allocates channel 1 and
echoes the expected 17-byte response. -/
theorem init_message_response_witness :
    broadcastInitMessage.payload.length = 8
    ∧ PacketProcessing.mkNew.chanAlloc.allocate =
        (some 1, ⟨{1}⟩)
    ∧ PacketProcessing.mkNew.handleInit broadcastInitMessage =
        some (.ok (.responseReady
          { channelIdentifier := BROADCAST_CHANNEL, command := .ok .init,
            payload := exampleNonce ++ be32 1 ++ [2, 0, 0, 0, 0x0C] }),
          { PacketProcessing.mkNew with chanAlloc := ⟨{1}⟩ }) :=
  ⟨by decide, by decide,
    ((init_message_response PacketProcessing.mkNew broadcastInitMessage).1
      (by decide)).1 (by decide) 1 ⟨{1}⟩ (by decide)⟩

theorem beVal_be32 (n : Nat) (h : n < 2 ^ 32) : beVal (be32 n) = n := by
  simp only [be32, beVal, List.foldl]
  omega

theorem beVal_be16 (n : Nat) (h : n < 2 ^ 16) : beVal (be16 n) = n := by
  simp only [be16, beVal, List.foldl]
  omega

theorem testBit7_of_lt (s : Nat) (h : s < 128) : s.testBit 7 = false := by
  apply Nat.testBit_lt_two_pow
  omega

theorem cmdByte_testBit (cmd : CommandType) :
    (cmd.toNat ||| 0x80).testBit 7 = true := by
  cases cmd <;> decide

theorem cmdByte_roundtrip (cmd : CommandType) :
    CommandType.fromPacketCommandIdentifier (cmd.toNat ||| 0x80) =
      some (.ok cmd) := by
  cases cmd <;> decide

theorem padTo_length (n : Nat) (l : List Nat) (h : l.length ≤ n) :
    (padTo n l).length = n := by
  simp [padTo]
  omega

theorem parseInit_report (chan cmdByte L : Nat) (data : List Nat) :
    parseInitializationPacket (be32 chan ++ cmdByte :: be16 L ++ data) =
      { channelIdentifier := beVal (be32 chan), commandIdentifier := cmdByte,
        payloadLength := beVal (be16 L), data := data } := by
  simp [parseInitializationPacket, be32, be16, List.getD]

theorem parseCont_report (chan seq : Nat) (data : List Nat) :
    parseContinuationPacket (be32 chan ++ seq :: data) =
      { channelIdentifier := beVal (be32 chan), packetSequence := seq,
        data := data } := by
  simp [parseContinuationPacket, be32, List.getD]



theorem chunksAux_fuel (k : Nat) (hk : 0 < k) :
    ∀ (fuel : Nat) (l : List Nat), l.length ≤ fuel →
      chunksAux k fuel l = chunksAux k l.length l := by
  intro fuel
  induction fuel using Nat.strong_induction_on with
  | _ fuel ih =>
    intro l hl
    match fuel, l with
    | 0, l =>
      have : l = [] := List.eq_nil_of_length_eq_zero (by omega)
      subst this; rfl
    | fuel + 1, [] => rfl
    | fuel + 1, x :: xs =>
      simp only [List.length_cons, chunksAux]
      congr 1
      have hlen : ((x :: xs).drop k).length = xs.length + 1 - k := by
        simp [List.length_drop]
      have h1 : ((x :: xs).drop k).length ≤ fuel := by
        simp only [List.length_cons] at hl; omega
      have h2 : ((x :: xs).drop k).length ≤ xs.length := by omega
      rw [ih fuel (by omega) _ h1, ih xs.length (by
        simp only [List.length_cons] at hl; omega) _ h2]

theorem listChunks_nil (k : Nat) : listChunks k [] = [] := rfl

theorem listChunks_cons (k : Nat) (hk : 0 < k) (l : List Nat) (hl : l ≠ []) :
    listChunks k l = l.take k :: listChunks k (l.drop k) := by
  obtain ⟨x, xs, rfl⟩ := List.exists_cons_of_ne_nil hl
  simp only [listChunks, List.length_cons, chunksAux]
  congr 1
  have : ((x :: xs).drop k).length ≤ xs.length := by
    simp [List.length_drop]; omega
  exact chunksAux_fuel k hk xs.length _ this

theorem listChunks_length_le (k : Nat) (hk : 0 < k) :
    ∀ (n : Nat) (l : List Nat), l.length ≤ k * n →
      (listChunks k l).length ≤ n := by
  intro n
  induction n with
  | zero =>
    intro l h
    have : l = [] := List.eq_nil_of_length_eq_zero (by omega)
    subst this
    simp [listChunks_nil]
  | succ n ih =>
    intro l h
    rcases eq_or_ne l [] with rfl | hne
    · simp [listChunks_nil]
    · rw [listChunks_cons k hk l hne]
      simp only [List.length_cons]
      have hexp : k * (n + 1) = k * n + k := by ring
      have := ih (l.drop k) (by simp only [List.length_drop]; omega)
      omega

theorem listChunks_mem_length (k : Nat) (hk : 0 < k) :
    ∀ (l : List Nat), ∀ c ∈ listChunks k l, c.length ≤ k := by
  suffices h : ∀ (n : Nat) (l : List Nat), l.length ≤ n →
      ∀ c ∈ listChunks k l, c.length ≤ k by
    intro l
    exact h l.length l (le_refl _)
  intro n
  induction n with
  | zero =>
    intro l hl
    have : l = [] := List.eq_nil_of_length_eq_zero (by omega)
    subst this
    simp [listChunks_nil]
  | succ n ih =>
    intro l hl
    rcases eq_or_ne l [] with rfl | hne
    · simp [listChunks_nil]
    · rw [listChunks_cons k hk l hne]
      intro c hc
      rcases List.mem_cons.mp hc with rfl | hc
      · simp [List.length_take]
      · refine ih (l.drop k) ?_ c hc
        simp only [List.length_drop]
        have : 0 < l.length := List.length_pos.mpr hne
        omega

theorem listChunks_flatten (k : Nat) (hk : 0 < k) :
    ∀ (l : List Nat), (listChunks k l).flatten = l := by
  suffices h : ∀ (n : Nat) (l : List Nat), l.length ≤ n →
      (listChunks k l).flatten = l by
    intro l
    exact h l.length l (le_refl _)
  intro n
  induction n with
  | zero =>
    intro l hl
    have : l = [] := List.eq_nil_of_length_eq_zero (by omega)
    subst this
    simp [listChunks_nil]
  | succ n ih =>
    intro l hl
    rcases eq_or_ne l [] with rfl | hne
    · simp [listChunks_nil]
    · rw [listChunks_cons k hk l hne]
      simp only [List.flatten_cons]
      rw [ih (l.drop k) (by
        simp only [List.length_drop]
        have : 0 < l.length := List.length_pos.mpr hne
        omega)]
      exact List.take_append_drop k l

theorem encodeConts_some (chan : Nat) :
    ∀ (chunks : List (List Nat)) (seq : Nat), seq + chunks.length ≤ 128 →
      ∃ reports, encodeConts chan seq chunks = some reports := by
  intro chunks
  induction chunks with
  | nil => intro seq h; exact ⟨[], rfl⟩
  | cons c cs ih =>
    intro seq h
    simp only [encodeConts]
    rw [if_neg (by simp only [List.length_cons] at h; omega)]
    obtain ⟨rest, hrest⟩ := ih (seq + 1)
      (by simp only [List.length_cons] at h; omega)
    rw [hrest]
    exact ⟨_, rfl⟩

theorem encodeConts_lengths (chan : Nat) :
    ∀ (chunks : List (List Nat)) (seq : Nat) (reports : List (List Nat)),
      (∀ c ∈ chunks, c.length ≤ 59) →
      encodeConts chan seq chunks = some reports →
      ∀ r ∈ reports, r.length = 64 := by
  intro chunks
  induction chunks with
  | nil =>
    intro seq reports _ h r hr
    cases h
    simp at hr
  | cons c cs ih =>
    intro seq reports hlens h r hr
    simp only [encodeConts] at h
    split at h
    · cases h
    · split at h
      next => cases h
      next rest hrest =>
        cases h
        rcases List.mem_cons.mp hr with rfl | hr
        · simp only [List.length_append, List.length_cons, be32,
            padTo_length 59 c (hlens c (by simp))]
          rfl
        · exact ih (seq + 1) rest (fun x hx => hlens x (by simp [hx]))
            hrest r hr



theorem getD4_report (chan b : Nat) (rest : List Nat) :
    (be32 chan ++ b :: rest).getD 4 0 = b := by
  simp [be32, List.getD]

theorem contReport_length (chan b : Nat) (c : List Nat) (hc : c.length ≤ 59) :
    (be32 chan ++ b :: padTo 59 c).length = 64 := by
  simp [be32, padTo]
  omega

theorem alLookup_single (k : Nat) (v : ChannelParseState) :
    alLookup [(k, v)] k = some v := by
  simp [alLookup, List.find?]

theorem alInsert_single (k : Nat) (v w : ChannelParseState) :
    alInsert [(k, v)] k w = [(k, w)] := by
  simp [alInsert]

theorem alRemove_single (k : Nat) (v : ChannelParseState) :
    alRemove [(k, v)] k = [] := by
  simp [alRemove]

theorem padTo_take (k : Nat) (q : List Nat) :
    (padTo k (q.take k)).take (min q.length k) = q.take k := by
  rcases le_or_lt q.length k with h | h
  · have h1 : min q.length k = q.length := by omega
    have h2 : q.take k = q := List.take_of_length_le h
    rw [h1, h2, padTo]
    rw [List.take_append_of_le_length (le_refl _)]
    simp
  · have h1 : min q.length k = k := by omega
    have h2 : (q.take k).length = k := by
      simp [List.length_take]; omega
    rw [h1, padTo, h2, Nat.sub_self]
    simp [List.take_of_length_le h2.le]



theorem decode_cont_phase (chan : Nat) (hchan : chan < 2 ^ 32)
    (cmdr : Except InvalidCommandType CommandType) :
    ∀ (n : Nat) (q : List Nat), q.length ≤ n → q ≠ [] →
      ∀ (acc : List Nat) (s : Nat) (reports : List (List Nat)),
      s + (listChunks 59 q).length ≤ 128 →
      encodeConts chan s (listChunks 59 q) = some reports →
      MessageDecoder.runDecoder
        ⟨[(chan, ChannelParseState.mk
            (some (Message.mk chan cmdr acc)) chan q.length s)]⟩
        reports =
        some (.ok (⟨[]⟩, [Message.mk chan cmdr (acc ++ q)])) := by
  intro n
  induction n with
  | zero =>
    intro q hq hne
    exact absurd (List.eq_nil_of_length_eq_zero (by omega)) hne
  | succ n ih =>
    intro q hq hne acc s reports hbound hrep
    rw [listChunks_cons 59 (by omega) q hne] at hbound hrep
    simp only [List.length_cons] at hbound
    have hs : s < 128 := by omega
    simp only [encodeConts] at hrep
    rw [if_neg (by omega)] at hrep
    -- extract the tail encoding
    rcases hrest : encodeConts chan (s + 1) (listChunks 59 (q.drop 59)) with
      _ | rest
    · rw [hrest] at hrep; cases hrep
    rw [hrest] at hrep
    cases hrep
    -- decode the first report
    have hqpos : 0 < q.length := List.length_pos.mpr hne
    have htake : (q.take 59).length ≤ 59 := by
      simp [List.length_take]
    simp only [MessageDecoder.runDecoder, MessageDecoder.decodePacket,
      contReport_length chan s (q.take 59) htake, HID_REPORT_SIZE]
    rw [if_neg (by omega)]
    rw [getD4_report, testBit7_of_lt s hs]
    simp only [Bool.false_eq_true, if_false,
      MessageDecoder.decodeContinuationPacket,
      parseCont_report, beVal_be32 chan hchan, alLookup_single]
    simp only [ChannelParseState.addContinuationPacket]
    rw [if_neg (by simp), if_neg (by
      simp only [ChannelParseState.isFinished, Option.isNone_iff_eq_none]
      rintro (h | h)
      · simp only [decide_eq_true_eq] at h; omega
      · cases h), if_neg (by simp), if_neg (by
      simp only [MAX_SEQ_NUM, gt_iff_lt, not_lt]; omega)]
    simp only [padTo_length 59 (q.take 59) htake, padTo_take 59 q]
    rcases le_or_lt q.length 59 with hle | hgt
    · -- final continuation: message completes
      have hmin : min q.length 59 = q.length := by omega
      have hdrop : q.drop 59 = [] := List.drop_eq_nil_of_le hle
      rw [hdrop, listChunks_nil] at hrest
      simp only [encodeConts] at hrest
      cases hrest
      simp only [hmin, Nat.sub_self, ChannelParseState.isFinished]
      rw [if_pos (by simp)]
      simp only [ChannelParseState.tryFinish, ChannelParseState.isFinished]
      rw [if_neg (by simp)]
      simp only [alRemove_single, List.take_of_length_le hle,
        MessageDecoder.runDecoder]
      simp
    · -- intermediate continuation: recurse
      have hmin : min q.length 59 = 59 := by omega
      simp only [hmin, ChannelParseState.isFinished]
      rw [if_neg (by simp only [decide_eq_true_eq]; omega)]
      simp only [alInsert_single]
      have hih := ih (q.drop 59)
        (by simp only [List.length_drop]; omega)
        (List.ne_nil_of_length_pos (by simp only [List.length_drop]; omega))
        (acc ++ q.take 59) (s + 1) rest (by omega) hrest
      simp only [List.length_drop] at hih
      rw [List.append_assoc, List.take_append_drop] at hih
      rw [hih]
      simp



theorem alLookup_nil (k : Nat) : alLookup [] k = none := rfl

theorem alInsert_nil (k : Nat) (v : ChannelParseState) :
    alInsert [] k v = [(k, v)] := rfl

theorem initReport_length (chan b L : Nat) (x : List Nat)
    (hx : x.length ≤ 57) :
    (be32 chan ++ b :: be16 L ++ padTo 57 x).length = 64 := by
  simp [be32, be16, padTo]
  omega

theorem listChunks64_flatten :
    ∀ reports : List (List Nat), (∀ r ∈ reports, r.length = 64) →
      listChunks 64 reports.flatten = reports := by
  intro reports
  induction reports with
  | nil => intro _; simp [listChunks_nil]
  | cons r rs ih =>
    intro h
    have hr : r.length = 64 := h r (by simp)
    simp only [List.flatten_cons]
    rw [listChunks_cons 64 (by omega) _ (by
      simp only [← List.length_pos_iff_ne_nil, List.length_append]
      omega)]
    rw [List.take_append_of_le_length (by omega), List.take_of_length_le
      (by omega), List.drop_append_of_le_length (by omega),
      List.drop_of_length_le (by omega)]
    simp only [List.nil_append]
    rw [ih (fun x hx => h x (by simp [hx]))]

theorem getD4_initReport (chan b : Nat) (l rest : List Nat) :
    ((be32 chan ++ b :: l) ++ rest).getD 4 0 = b := by
  simp [be32, List.getD]

/-- C2 (confirmed): for every Message with a recognized command and a
payload of at most MAX_MESSAGE_PAYLOAD_SIZE bytes, encode_message
succeeds, producing one 64-byte report per packet; splitting the flat
byte stream back into 64-byte chunks recovers exactly those reports; and
feeding them in order into a fresh MessageDecoder yields exactly the
original message (same channel, command and payload, padding discarded),
with the decoder back in its initial state. -/
theorem hid_message_roundtrip (m : Message) (cmd : CommandType)
    (hcmd : m.command = .ok cmd)
    (hlen : m.payload.length ≤ MAX_MESSAGE_PAYLOAD_SIZE)
    (hchan : m.channelIdentifier < 2 ^ 32) :
    ∃ reports, encodePackets m = some (.ok reports)
      ∧ encodeMessage m = some (.ok reports.flatten)
      ∧ (∀ r ∈ reports, r.length = 64)
      ∧ listChunks 64 reports.flatten = reports
      ∧ MessageDecoder.mkNew.runDecoder reports =
          some (.ok (MessageDecoder.mkNew, [m])) := by
  have hmaxval : MAX_MESSAGE_PAYLOAD_SIZE = 7609 := by decide
  have hchunksbound : (listChunks 59 (m.payload.drop 57)).length ≤ 128 := by
    apply listChunks_length_le 59 (by omega)
    simp only [List.length_drop]
    omega
  obtain ⟨conts, hconts⟩ := encodeConts_some m.channelIdentifier
    (listChunks 59 (m.payload.drop 57)) 0 (by omega)
  have henc : encodePackets m = some (.ok
      ((be32 m.channelIdentifier ++ (cmd.toNat ||| 0x80) ::
        be16 (m.payload.length % 65536) ++
        padTo 57 (m.payload.take 57)) :: conts)) := by
    simp only [encodePackets]
    rw [if_neg (by omega), hcmd, hconts]
  have htake57 : (m.payload.take 57).length ≤ 57 := by
    simp [List.length_take]
  have hinitlen : (be32 m.channelIdentifier ++ (cmd.toNat ||| 0x80) ::
      be16 (m.payload.length % 65536) ++
      padTo 57 (m.payload.take 57)).length = 64 :=
    initReport_length _ _ _ _ htake57
  have hlens : ∀ r ∈ (be32 m.channelIdentifier ++ (cmd.toNat ||| 0x80) ::
      be16 (m.payload.length % 65536) ++
      padTo 57 (m.payload.take 57)) :: conts, r.length = 64 := by
    intro r hr
    rcases List.mem_cons.mp hr with rfl | hr
    · exact hinitlen
    · exact encodeConts_lengths m.channelIdentifier _ 0 conts
        (listChunks_mem_length 59 (by omega) _) hconts r hr
  refine ⟨_, henc, ?_, hlens, listChunks64_flatten _ hlens, ?_⟩
  · simp only [encodeMessage, henc, Option.map_some]
    rfl
  · -- decode the initialization report
    have hmod : m.payload.length % 65536 = m.payload.length :=
      Nat.mod_eq_of_lt (by omega)
    have hL : beVal (be16 (m.payload.length % 65536)) = m.payload.length := by
      rw [hmod]
      exact beVal_be16 _ (by omega)
    simp only [MessageDecoder.runDecoder, MessageDecoder.decodePacket,
      hinitlen, HID_REPORT_SIZE]
    rw [if_neg (by omega)]
    rw [getD4_initReport, cmdByte_testBit cmd]
    simp only [if_true, MessageDecoder.decodeInitializationPacket,
      parseInit_report, beVal_be32 _ hchan, hL, MessageDecoder.mkNew,
      alLookup_nil]
    simp only [ChannelParseState.new, cmdByte_roundtrip cmd]
    rw [if_neg (by omega)]
    simp only [padTo_length 57 _ htake57, Nat.min_comm 57 m.payload.length,
      padTo_take 57 m.payload]
    rcases le_or_lt m.payload.length 57 with hle | hgt
    · -- single-packet message
      have hmin : min m.payload.length 57 = m.payload.length := by omega
      have hdrop : m.payload.drop 57 = [] := List.drop_eq_nil_of_le hle
      rw [hdrop, listChunks_nil] at hconts
      simp only [encodeConts] at hconts
      obtain rfl : conts = [] := by cases hconts; rfl
      simp only [hmin, Nat.sub_self, ChannelParseState.tryFinish,
        ChannelParseState.isFinished]
      rw [if_neg (by simp)]
      simp only [List.take_of_length_le hle, MessageDecoder.runDecoder]
      simp only [Option.toList_some, List.append_nil]
      obtain ⟨mc, mcmd, mp⟩ := m
      simp only at hcmd
      subst hcmd
      rfl
    · -- multi-packet message
      have hmin : min m.payload.length 57 = 57 := by omega
      simp only [hmin, ChannelParseState.tryFinish,
        ChannelParseState.isFinished]
      rw [if_pos (by simp only [decide_eq_true_eq]; omega)]
      simp only [alInsert_nil]
      have hih := decode_cont_phase m.channelIdentifier hchan (.ok cmd)
        (m.payload.drop 57).length (m.payload.drop 57) (le_refl _)
        (List.ne_nil_of_length_pos (by simp only [List.length_drop]; omega))
        (m.payload.take 57) 0 conts (by omega) hconts
      simp only [List.length_drop] at hih
      rw [List.take_append_drop] at hih
      rw [hih]
      simp only [Option.toList_none, List.nil_append, MessageDecoder.mkNew]
      obtain ⟨mc, mcmd, mp⟩ := m
      simp only at hcmd
      subst hcmd
      rfl


/-- Witness for the C2 theorem at the concrete message used by the
repository's own test: channel 1337, command MSG, payload [1, 3, 3, 7]. -/
theorem hid_message_roundtrip_witness :
    exampleShortMessage.command = .ok .msg
    ∧ exampleShortMessage.payload.length ≤ MAX_MESSAGE_PAYLOAD_SIZE
    ∧ exampleShortMessage.channelIdentifier < 2 ^ 32
    ∧ ∃ reports, encodePackets exampleShortMessage = some (.ok reports)
      ∧ encodeMessage exampleShortMessage = some (.ok reports.flatten)
      ∧ (∀ r ∈ reports, r.length = 64)
      ∧ listChunks 64 reports.flatten = reports
      ∧ MessageDecoder.mkNew.runDecoder reports =
          some (.ok (MessageDecoder.mkNew, [exampleShortMessage])) :=
  ⟨rfl, by decide, by decide,
   hid_message_roundtrip exampleShortMessage .msg rfl (by decide)
     (by decide)⟩

theorem insertEntry_perm (x : Value × Value) (l : List (Value × Value)) :
    (insertEntry x l).Perm (x :: l) := by
  induction l with
  | nil => exact List.Perm.refl _
  | cons y ys ih =>
    simp only [insertEntry]
    split
    · exact ((ih.cons y).trans (List.Perm.swap x y ys)).symm.symm
    · exact List.Perm.refl _

theorem sortEntries_perm (l : List (Value × Value)) :
    (sortEntries l).Perm l := by
  induction l with
  | nil => exact List.Perm.refl _
  | cons x xs ih =>
    exact (insertEntry_perm x (sortEntries xs)).trans (ih.cons x)

theorem lexCompare_swap (s t : List Nat) :
    lexCompare t s = (lexCompare s t).swap := by
  induction s generalizing t with
  | nil => cases t <;> rfl
  | cons x xs ih =>
    cases t with
    | nil => rfl
    | cons y ys =>
      simp only [lexCompare]
      rcases lt_trichotomy x y with h | h | h
      · rw [compare_lt_iff_lt.mpr h, compare_gt_iff_gt.mpr h]
        rfl
      · subst h
        rw [compare_eq_iff_eq.mpr rfl]
        simp only [Ordering.then]
        exact ih ys
      · rw [compare_lt_iff_lt.mpr h, compare_gt_iff_gt.mpr h]
        rfl

theorem lexLe_total (s t : List Nat) :
    lexLe s t = true ∨ lexLe t s = true := by
  simp only [lexLe, lexCompare_swap s t]
  cases hc : lexCompare s t <;> simp [hc, Ordering.swap]

theorem entryLe_total_int (a b : Value × Value) (i j : Int)
    (ha : a.1 = .integer i) (hb : b.1 = .integer j) :
    entryLe a b = true ∨ entryLe b a = true := by
  simp only [entryLe, ha, hb, cmpValues]
  rcases le_or_lt i j with h | h
  · left
    rcases lt_or_eq_of_le h with h | h
    · rw [compare_lt_iff_lt.mpr h]
    · subst h; rw [compare_eq_iff_eq.mpr rfl]
  · right
    rw [compare_lt_iff_lt.mpr h]

theorem compare_swap_lin {α : Type} [LinearOrder α] (a b : α) :
    compare b a = (compare a b).swap := by
  rcases lt_trichotomy a b with h | h | h
  · rw [compare_lt_iff_lt.mpr h, compare_gt_iff_gt.mpr h]
    rfl
  · subst h
    rw [compare_eq_iff_eq.mpr rfl]
    rfl
  · rw [compare_gt_iff_gt.mpr h, compare_lt_iff_lt.mpr h]
    rfl

theorem then_swap_ord (x y : Ordering) :
    (x.then y).swap = x.swap.then y.swap := by
  cases x <;> rfl

theorem entryLe_total_text (a b : Value × Value) (s t : List Nat)
    (ha : a.1 = .text s) (hb : b.1 = .text t) :
    entryLe a b = true ∨ entryLe b a = true := by
  simp only [entryLe, ha, hb, cmpValues]
  have hswap : (compare t.length s.length).then (lexCompare t s) =
      ((compare s.length t.length).then (lexCompare s t)).swap := by
    rw [then_swap_ord, ← lexCompare_swap, compare_swap_lin]
  rw [hswap]
  cases hc : (compare s.length t.length).then (lexCompare s t) <;>
    simp [hc, Ordering.swap]




theorem insertEntry_head (x : Value × Value) (l : List (Value × Value)) :
    (insertEntry x l).head? = some x ∨ (insertEntry x l).head? = l.head? := by
  cases l with
  | nil => left; rfl
  | cons y ys =>
    simp only [insertEntry]
    split
    · right; rfl
    · left; rfl

theorem insertEntry_chain (x : Value × Value) (l : List (Value × Value))
    (htot : ∀ b ∈ l, entryLe x b = true ∨ entryLe b x = true)
    (hl : List.Chain' entryLeP l) :
    List.Chain' entryLeP (insertEntry x l) := by
  induction l with
  | nil => simp [insertEntry]
  | cons y ys ih =>
    simp only [insertEntry]
    split
    next hle =>
      have hins := ih (fun b hb => htot b (by simp [hb])) hl.tail
      apply List.chain'_cons'.mpr
      refine ⟨?_, hins⟩
      intro z hz
      rcases insertEntry_head x ys with hh | hh
      · rw [hh] at hz
        cases hz
        exact hle
      · rw [hh] at hz
        exact (List.chain'_cons'.mp hl).1 z hz
    next hle =>
      apply List.chain'_cons.mpr
      refine ⟨?_, hl⟩
      rcases htot y (by simp) with h | h
      · exact h
      · exact absurd h hle

theorem sortEntries_chain (l : List (Value × Value))
    (htot : ∀ a ∈ l, ∀ b ∈ l, entryLe a b = true ∨ entryLe b a = true) :
    List.Chain' entryLeP (sortEntries l) := by
  induction l with
  | nil => simp [sortEntries]
  | cons x xs ih =>
    simp only [sortEntries]
    apply insertEntry_chain
    · intro b hb
      have hb' : b ∈ xs := (sortEntries_perm xs).mem_iff.mp hb
      exact htot x (by simp) b (by simp [hb'])
    · exact ih (fun a ha b hb => htot a (by simp [ha]) b (by simp [hb]))



theorem isIntegerKey_exists (e : Value × Value) (h : isIntegerKey e = true) :
    ∃ i, e.1 = Value.integer i := by
  unfold isIntegerKey at h
  cases he : e.1 <;> rw [he] at h
  case integer i => exact ⟨i, rfl⟩
  all_goals cases h

theorem isTextKey_exists (e : Value × Value) (h : isTextKey e = true) :
    ∃ s, e.1 = Value.text s := by
  unfold isTextKey at h
  cases he : e.1 <;> rw [he] at h
  case text s => exact ⟨s, rfl⟩
  all_goals cases h

theorem keysWellTyped_total (l : List (Value × Value))
    (h : keysWellTyped l = true) :
    ∀ a ∈ l, ∀ b ∈ l, entryLe a b = true ∨ entryLe b a = true := by
  simp only [keysWellTyped, Bool.or_eq_true, List.all_eq_true] at h
  intro a ha b hb
  rcases h with h | h
  · obtain ⟨i, hi⟩ := isIntegerKey_exists a (h a ha)
    obtain ⟨j, hj⟩ := isIntegerKey_exists b (h b hb)
    exact entryLe_total_int a b i j hi hj
  · obtain ⟨s, hs⟩ := isTextKey_exists a (h a ha)
    obtain ⟨t, ht⟩ := isTextKey_exists b (h b hb)
    exact entryLe_total_text a b s t hs ht

theorem entryLe_claim_int (a b : Value × Value) (i j : Int)
    (ha : a.1 = .integer i) (hb : b.1 = .integer j)
    (h : entryLe a b = true) : claimKeyLe a.1 b.1 = true := by
  simp only [entryLe, ha, hb, cmpValues] at h
  rw [ha, hb]
  simp only [claimKeyLe, decide_eq_true_eq]
  by_contra hc
  rw [compare_gt_iff_gt.mpr (by omega)] at h
  cases h

theorem entryLe_claim_text (a b : Value × Value) (s t : List Nat)
    (ha : a.1 = .text s) (hb : b.1 = .text t)
    (h : entryLe a b = true) : claimKeyLe a.1 b.1 = true := by
  simp only [entryLe, ha, hb, cmpValues] at h
  rw [ha, hb]
  simp only [claimKeyLe]
  rcases lt_trichotomy s.length t.length with hl | hl | hl
  · simp [hl]
  · rw [compare_eq_iff_eq.mpr hl] at h
    simp only [Ordering.then] at h
    simp only [hl, lexLe]
    cases hlex : lexCompare s t
    · simp
    · simp
    · rw [hlex] at h
      cases h
  · rw [compare_gt_iff_gt.mpr hl] at h
    cases h

theorem keysWellTyped_tail (a : Value × Value) (l : List (Value × Value))
    (h : keysWellTyped (a :: l) = true) : keysWellTyped l = true := by
  simp only [keysWellTyped, Bool.or_eq_true, List.all_eq_true] at h ⊢
  rcases h with h | h
  · exact Or.inl (fun b hb => h b (by simp [hb]))
  · exact Or.inr (fun b hb => h b (by simp [hb]))

theorem chain_to_sortedKeys (l : List (Value × Value))
    (hwt : keysWellTyped l = true)
    (hc : List.Chain' entryLeP l) : sortedKeys (l.map Prod.fst) = true := by
  induction l with
  | nil => rfl
  | cons a l ih =>
    cases l with
    | nil => rfl
    | cons b l2 =>
      simp only [List.map_cons, sortedKeys, Bool.and_eq_true]
      obtain ⟨hab, hcrest⟩ := List.chain'_cons.mp hc
      constructor
      · simp only [keysWellTyped, Bool.or_eq_true, List.all_eq_true] at hwt
        rcases hwt with h | h
        · obtain ⟨i, hi⟩ := isIntegerKey_exists a (h a (by simp))
          obtain ⟨j, hj⟩ := isIntegerKey_exists b (h b (by simp))
          exact entryLe_claim_int a b i j hi hj hab
        · obtain ⟨sk, hs⟩ := isTextKey_exists a (h a (by simp))
          obtain ⟨tk, ht⟩ := isTextKey_exists b (h b (by simp))
          exact entryLe_claim_text a b sk tk hs ht hab
      · have := ih (keysWellTyped_tail a _ hwt) hcrest
        simpa using this

theorem keysWellTyped_perm (l l2 : List (Value × Value)) (hp : l.Perm l2)
    (h : keysWellTyped l = true) : keysWellTyped l2 = true := by
  simp only [keysWellTyped, Bool.or_eq_true, List.all_eq_true] at h ⊢
  rcases h with h | h
  · exact Or.inl (fun b hb => h b (hp.mem_iff.mpr hb))
  · exact Or.inr (fun b hb => h b (hp.mem_iff.mpr hb))



theorem makeOrderedList_eq (vs : List Value) :
    makeOrderedList vs = vs.map makeOrdered := by
  induction vs with
  | nil => rfl
  | cons v vs ih => simp [makeOrderedList, ih]

theorem makeOrderedEntries_eq (es : List (Value × Value)) :
    makeOrderedEntries es =
      es.map (fun e => (makeOrdered e.1, makeOrdered e.2)) := by
  induction es with
  | nil => rfl
  | cons e es ih =>
    obtain ⟨k, v⟩ := e
    simp [makeOrderedEntries, ih]

theorem mapsSortedList_iff (vs : List Value) :
    mapsSortedList vs = true ↔ ∀ v ∈ vs, mapsSorted v = true := by
  induction vs with
  | nil => simp [mapsSortedList]
  | cons v vs ih => simp [mapsSortedList, ih]

theorem mapsSortedEntries_iff (es : List (Value × Value)) :
    mapsSortedEntries es = true ↔
      ∀ e ∈ es, mapsSorted e.1 = true ∧ mapsSorted e.2 = true := by
  induction es with
  | nil => simp [mapsSortedEntries]
  | cons e es ih =>
    obtain ⟨k, v⟩ := e
    simp [mapsSortedEntries, ih, and_assoc]

theorem wellKeyedList_iff (vs : List Value) :
    wellKeyedList vs = true ↔ ∀ v ∈ vs, wellKeyed v = true := by
  induction vs with
  | nil => simp [wellKeyedList]
  | cons v vs ih => simp [wellKeyedList, ih]

theorem wellKeyedEntries_iff (es : List (Value × Value)) :
    wellKeyedEntries es = true ↔
      ∀ e ∈ es, wellKeyed e.1 = true ∧ wellKeyed e.2 = true := by
  induction es with
  | nil => simp [wellKeyedEntries]
  | cons e es ih =>
    obtain ⟨k, v⟩ := e
    simp [wellKeyedEntries, ih, and_assoc]

theorem isIntegerKey_processed (k v : Value) :
    isIntegerKey (makeOrdered k, makeOrdered v) = isIntegerKey (k, v) := by
  cases k <;> rfl

theorem isTextKey_processed (k v : Value) :
    isTextKey (makeOrdered k, makeOrdered v) = isTextKey (k, v) := by
  cases k <;> rfl

theorem keysWellTyped_processed (es : List (Value × Value)) :
    keysWellTyped (makeOrderedEntries es) = keysWellTyped es := by
  rw [makeOrderedEntries_eq]
  have h1 : ∀ l : List (Value × Value),
      (l.map (fun e => (makeOrdered e.1, makeOrdered e.2))).all isIntegerKey
        = l.all isIntegerKey := by
    intro l
    induction l with
    | nil => rfl
    | cons e l ih =>
      obtain ⟨k, v⟩ := e
      simp only [List.map_cons, List.all_cons, ih, isIntegerKey_processed]
  have h2 : ∀ l : List (Value × Value),
      (l.map (fun e => (makeOrdered e.1, makeOrdered e.2))).all isTextKey
        = l.all isTextKey := by
    intro l
    induction l with
    | nil => rfl
    | cons e l ih =>
      obtain ⟨k, v⟩ := e
      simp only [List.map_cons, List.all_cons, ih, isTextKey_processed]
  simp only [keysWellTyped, h1, h2]

theorem sameList_map (vs : List Value)
    (h : ∀ v ∈ vs, SameContents v (makeOrdered v)) :
    SameList vs (vs.map makeOrdered) := by
  induction vs with
  | nil => exact .nil
  | cons v vs ih =>
    exact .cons (h v (by simp)) (ih (fun w hw => h w (by simp [hw])))

theorem sameEntries_map (es : List (Value × Value))
    (h : ∀ e ∈ es, SameContents e.1 (makeOrdered e.1) ∧
      SameContents e.2 (makeOrdered e.2)) :
    SameEntries es (es.map (fun e => (makeOrdered e.1, makeOrdered e.2))) := by
  induction es with
  | nil => exact .nil
  | cons e es ih =>
    obtain ⟨k, v⟩ := e
    exact .cons (h (k, v) (by simp)).1 (h (k, v) (by simp)).2
      (ih (fun f hf => h f (by simp [hf])))



theorem canonical_ordering_aux :
    ∀ (n : Nat) (v : Value), sizeOf v ≤ n → wellKeyed v = true →
      mapsSorted (makeOrdered v) = true ∧ SameContents v (makeOrdered v) := by
  intro n
  induction n with
  | zero =>
    intro v hv
    exact absurd hv (by cases v <;> simp)
  | succ n ih =>
    intro v hv hwk
    cases v with
    | integer i => exact ⟨rfl, .integer i⟩
    | bytes b => exact ⟨rfl, .bytes b⟩
    | text s => exact ⟨rfl, .text s⟩
    | bool b => exact ⟨rfl, .bool b⟩
    | null => exact ⟨rfl, .null⟩
    | tag t v =>
      have hs : sizeOf v ≤ n := by
        simp only [Value.tag.sizeOf_spec] at hv
        omega
      have hwk' : wellKeyed v = true := by simpa [wellKeyed] using hwk
      obtain ⟨h1, h2⟩ := ih v hs hwk'
      exact ⟨by simpa [makeOrdered, mapsSorted] using h1, .tag t h2⟩
    | array vs =>
      have hwk' : ∀ w ∈ vs, wellKeyed w = true := by
        rw [show wellKeyed (.array vs) = wellKeyedList vs from rfl,
          wellKeyedList_iff] at hwk
        exact hwk
      have hsz : ∀ w ∈ vs, sizeOf w ≤ n := by
        intro w hw
        have h1 := List.sizeOf_lt_of_mem hw
        simp only [Value.array.sizeOf_spec] at hv
        omega
      have hall : ∀ w ∈ vs, mapsSorted (makeOrdered w) = true ∧
          SameContents w (makeOrdered w) :=
        fun w hw => ih w (hsz w hw) (hwk' w hw)
      constructor
      · rw [show makeOrdered (.array vs) = .array (makeOrderedList vs)
          from by simp [makeOrdered]]
        rw [show mapsSorted (.array (makeOrderedList vs))
          = mapsSortedList (makeOrderedList vs) from rfl]
        rw [mapsSortedList_iff, makeOrderedList_eq]
        intro w hw
        obtain ⟨u, hu, rfl⟩ := List.mem_map.mp hw
        exact (hall u hu).1
      · rw [show makeOrdered (.array vs) = .array (makeOrderedList vs)
          from by simp [makeOrdered]]
        rw [makeOrderedList_eq]
        exact .array (sameList_map vs (fun w hw => (hall w hw).2))
    | map es =>
      have hmo : makeOrdered (.map es) =
          .map (sortEntries (makeOrderedEntries es)) := by
        simp [makeOrdered]
      have hwt : keysWellTyped es = true ∧ wellKeyedEntries es = true := by
        have : wellKeyed (.map es)
            = (keysWellTyped es && wellKeyedEntries es) := rfl
        rw [this, Bool.and_eq_true] at hwk
        exact hwk
      have hents : ∀ e ∈ es, wellKeyed e.1 = true ∧ wellKeyed e.2 = true :=
        (wellKeyedEntries_iff es).mp hwt.2
      have hsz : ∀ e ∈ es, sizeOf e.1 ≤ n ∧ sizeOf e.2 ≤ n := by
        intro e he
        have h1 := List.sizeOf_lt_of_mem he
        obtain ⟨k, v⟩ := e
        simp only [Value.map.sizeOf_spec] at hv
        simp only [Prod.mk.sizeOf_spec] at h1
        constructor <;> (simp only []; omega)
      have hall : ∀ e ∈ es, (mapsSorted (makeOrdered e.1) = true ∧
            SameContents e.1 (makeOrdered e.1)) ∧
          (mapsSorted (makeOrdered e.2) = true ∧
            SameContents e.2 (makeOrdered e.2)) := by
        intro e he
        exact ⟨ih e.1 (hsz e he).1 (hents e he).1,
               ih e.2 (hsz e he).2 (hents e he).2⟩
      have hproc_wt : keysWellTyped (makeOrderedEntries es) = true := by
        rw [keysWellTyped_processed]
        exact hwt.1
      have hsorted_perm := sortEntries_perm (makeOrderedEntries es)
      have hsorted_wt : keysWellTyped
          (sortEntries (makeOrderedEntries es)) = true :=
        keysWellTyped_perm _ _ hsorted_perm.symm hproc_wt
      have hchain := sortEntries_chain (makeOrderedEntries es)
        (keysWellTyped_total _ hproc_wt)
      constructor
      · rw [hmo]
        rw [show mapsSorted (.map (sortEntries (makeOrderedEntries es)))
          = (sortedKeys ((sortEntries (makeOrderedEntries es)).map Prod.fst)
            && mapsSortedEntries (sortEntries (makeOrderedEntries es)))
          from rfl]
        rw [Bool.and_eq_true]
        constructor
        · exact chain_to_sortedKeys _ hsorted_wt hchain
        · rw [mapsSortedEntries_iff]
          intro e he
          have he' : e ∈ makeOrderedEntries es :=
            hsorted_perm.mem_iff.mp he
          rw [makeOrderedEntries_eq] at he'
          obtain ⟨f, hf, rfl⟩ := List.mem_map.mp he'
          exact ⟨((hall f hf).1).1, ((hall f hf).2).1⟩
      · rw [hmo]
        refine @SameContents.map es (makeOrderedEntries es)
          (sortEntries (makeOrderedEntries es)) ?_ ?_
        · rw [makeOrderedEntries_eq]
          exact sameEntries_map es
            (fun e he => ⟨((hall e he).1).2, ((hall e he).2).2⟩)
        · exact hsorted_perm.symm

/-- C8 (confirmed): for every CBOR value tree in which each map's keys
are all integers or all text strings, make_ordered leaves every map at
every depth with its entries sorted by key — integer keys in ascending
numeric order (strict ascent between distinct keys being immediate from
ascending order plus distinctness, as the final conjunct records), text
keys ascending by byte length and then bytewise — while the tree is
otherwise unchanged: leaves, tags and array order are preserved and each
map's entries are a permutation of its recursively processed entries. -/
theorem canonical_ordering (v : Value) (h : wellKeyed v = true) :
    mapsSorted (makeOrdered v) = true ∧ SameContents v (makeOrdered v)
    ∧ (∀ i j : Int, claimKeyLe (.integer i) (.integer j) = true → i ≠ j →
        i < j) :=
  ⟨(canonical_ordering_aux (sizeOf v) v (le_refl _) h).1,
   (canonical_ordering_aux (sizeOf v) v (le_refl _) h).2,
   fun i j hle hne => by
     simp only [claimKeyLe, decide_eq_true_eq] at hle
     omega⟩

/-- Witness for the C8 theorem at the value of the repository's own test:
the map with integer keys 5, 3, 4 and a nested map with keys 9, 8. -/
theorem canonical_ordering_witness :
    wellKeyed exampleCborValue = true
    ∧ makeOrdered exampleCborValue =
        .map [(.integer 3, .integer 3),
              (.integer 4, .map [(.integer 8, .integer 8),
                                 (.integer 9, .integer 9)]),
              (.integer 5, .integer 5)]
    ∧ mapsSorted (makeOrdered exampleCborValue) = true
    ∧ SameContents exampleCborValue (makeOrdered exampleCborValue) :=
  ⟨rfl, rfl, (canonical_ordering exampleCborValue rfl).1,
   (canonical_ordering exampleCborValue rfl).2.1⟩

/-- C1 (code_bug): keyed-record CBOR decoding is not a left inverse of
encoding, because it never succeeds at all: KeyMappedMapAccess's
next_key_seed is todo!(), so deserializing the map produced by
serializing any KeymappedStruct panics before reading the first key, and
CTAP2Command::from_ctap_cbor(0x01, payload) panics on every conformant
MakeCredential payload. Stated for every field mapping and record, and
evaluated at a concrete conformant MakeCredential request. -/
theorem keyed_decode_panics :
    (∀ (fm : List (String × Nat)) (fields : List (String × Value)),
        decodeKeymapped fm (encodeKeymapped fm fields) = none)
    ∧ encodeKeymapped makeCredentialFieldMappings
        exampleMakeCredentialRecord =
        .map [(.integer 1, .bytes [0xA8, 0x30, 0xE6, 0x41]),
              (.integer 2, .map [(.text [0x69, 0x64], .text [0x77, 0x61])]),
              (.integer 3,
                .map [(.text [0x69, 0x64], .bytes [0x8A, 0x89])]),
              (.integer 4,
                .array [.map [(.text [0x61, 0x6C, 0x67], .integer (-7))]]),
              (.integer 7, .map [(.text [0x75, 0x76], .bool true)])]
    ∧ CTAP2Command.fromCtapCbor 0x01
        (encodeKeymapped makeCredentialFieldMappings
          exampleMakeCredentialRecord) = none :=
  ⟨fun _ _ => rfl, rfl, rfl⟩

end Softauth
